import Mathlib

/-!
# XKCD aggregation service: embedding and verification

A shallow embedding of `src/services/xkcdService.js` (class `XKCDService`) and of the
part of `src/middleware/errorHandler.js` that maps its errors to a status code.

Conventions of the embedding:

* A number of the language is an IEEE-754 binary64 value.  The numbers the service
  computes with (ids, page, limit, timestamps in milliseconds) are integers; a value
  is an `Int`, and every subtraction, addition and product the code performs on ids,
  pages and limits is rounded to the nearest binary64 value, ties to even
  (`roundNat`, `roundInt`, `roundDouble`).  An `Int` argument stands for a number of
  the language, so it is meant to be a binary64 value itself; every integer of
  magnitude at most `2 ^ 53` is one.
* A property of a JSON document that the code treats as text is a `JSValue`, so that it
  may be missing, text, or any other JSON value; `num`, `year`, `month` and `day` are
  integers when present.
* `Date.now()`, the answers of `fetch` and the draw of `Math.random()` are inputs: every
  operation receives the time read at its cache check (`now`), the time read when it
  stores (`stamp`), and the upstream's answers.  The mutable `this.cache` is passed in
  and returned.
* The case mapping of `String.prototype.toLowerCase` and the wording of the runtime's
  `TypeError` are not embedded; they are the fields of an `Engine`.
* An `async` method that throws returns `Except.error` with the error's `message`; an
  operation whose loop may never end takes a bound on the iterations and returns
  `none` when the loop is still running at that bound.
-/

set_option autoImplicit false

deriving instance DecidableEq for Except

namespace XKCD

/-! ## Numbers -/

/-- A number the arithmetic of the service can produce: an integer, `Infinity`,
`-Infinity` or `NaN`.  The sign of a zero is not recorded: no operation of the service
reads it. -/
inductive JSNum where
  | fin (n : Int)
  | infinity
  | negInfinity
  | nan
  deriving DecidableEq, Repr

/-- The number of times `n` has to be halved to fall below `2 ^ 53`, counted with at
most `fuel` steps. -/
def halvings : Nat → Nat → Nat
  | 0, _ => 0
  | fuel + 1, n => if n < 2 ^ 53 then 0 else halvings fuel (n / 2) + 1

/-- The exponent `s` of the spacing `2 ^ s` of binary64 at `n`: `0` below `2 ^ 53`, and
otherwise the `s` with `2 ^ (52 + s) ≤ n < 2 ^ (53 + s)`. -/
def spacingExp (n : Nat) : Nat := halvings n n

/-- The binary64 value nearest to the natural number `n`, ties to the even significand,
with the exponent left unbounded. -/
def roundNat (n : Nat) : Nat :=
  if n < 2 ^ 53 then n
  else
    let s := spacingExp n
    let q := n / 2 ^ s
    let r := n % 2 ^ s
    let half := 2 ^ (s - 1)
    if r < half then q * 2 ^ s
    else if half < r then (q + 1) * 2 ^ s
    else if q % 2 = 0 then q * 2 ^ s else (q + 1) * 2 ^ s

/-- The binary64 value nearest to the integer `z`, with the exponent left unbounded. -/
def roundInt (z : Int) : Int :=
  if z < 0 then -(roundNat z.natAbs : Int) else (roundNat z.natAbs : Int)

/-- The result of an arithmetic operation whose exact value is the integer `z`: the
nearest binary64 value, or an infinity when that value is `2 ^ 1024` or more in
magnitude. -/
def roundDouble (z : Int) : JSNum :=
  if 972 ≤ spacingExp (roundNat z.natAbs) then
    (if z < 0 then JSNum.negInfinity else JSNum.infinity)
  else JSNum.fin (roundInt z)

/-- The product `a * b` of a number and an integer. -/
def mulNum (a : JSNum) (b : Int) : JSNum :=
  match a with
  | JSNum.fin x => roundDouble (x * b)
  | JSNum.infinity =>
    if b = 0 then JSNum.nan else if 0 < b then JSNum.infinity else JSNum.negInfinity
  | JSNum.negInfinity =>
    if b = 0 then JSNum.nan else if 0 < b then JSNum.negInfinity else JSNum.infinity
  | JSNum.nan => JSNum.nan

/-- The sum `a + b` of a number and an integer. -/
def addNum (a : JSNum) (b : Int) : JSNum :=
  match a with
  | JSNum.fin x => roundDouble (x + b)
  | other => other

/-- The expression `Math.ceil(a / b)` for an array length `a` and an integer `b`: the
ceiling of the exact quotient when `b` is not zero, `NaN` for `0 / 0` and `Infinity`
for a positive `a` over `0`.  The quotient of the code is rounded to binary64 before
the ceiling is taken; for a length, which is below `2 ^ 32`, the ceiling of the rounded
quotient is the ceiling of the exact one. -/
def ceilDiv (a : Nat) (b : Int) : JSNum :=
  if b = 0 then (if a = 0 then JSNum.nan else JSNum.infinity)
  else JSNum.fin (-(Int.fdiv (-(a : Int)) b))

/-- The expression `Math.max(1, x)`. -/
def maxOne : JSNum → JSNum
  | JSNum.fin n => JSNum.fin (max 1 n)
  | JSNum.infinity => JSNum.infinity
  | JSNum.negInfinity => JSNum.fin 1
  | JSNum.nan => JSNum.nan

/-- The value of `Array.prototype.slice` for one relative index: `NaN` counts as 0, a
negative index counts from the end, and the result is clamped to `[0, len]`. -/
def relativeIndex (len : Nat) (k : JSNum) : Nat :=
  match k with
  | JSNum.fin k => if k < 0 then (max ((len : Int) + k) 0).toNat else min k.toNat len
  | JSNum.infinity => len
  | JSNum.negInfinity => 0
  | JSNum.nan => 0

/-- The method `Array.prototype.slice(start, stop)`. -/
def slice {α : Type} (xs : List α) (start stop : JSNum) : List α :=
  let k := relativeIndex xs.length start
  let final := relativeIndex xs.length stop
  (xs.drop k).take (final - k)

/-! ## Text -/

/-- The parts of the language runtime that are left open: the case mapping of
`String.prototype.toLowerCase`, and the message of the `TypeError` thrown when
`(c.<property> || '').toLowerCase` is not a function, by the name of the property. -/
structure Engine where
  toLowerCase : String → String
  typeErrorMessage : String → String

/-- White space and line terminators, the code points that `String.prototype.trim`
removes. -/
def isTrimSpace (c : Char) : Bool :=
  let n := c.toNat
  n = 0x09 || n = 0x0A || n = 0x0B || n = 0x0C || n = 0x0D || n = 0x20 || n = 0xA0 ||
  n = 0x1680 || (0x2000 ≤ n && n ≤ 0x200A) || n = 0x2028 || n = 0x2029 || n = 0x202F ||
  n = 0x205F || n = 0x3000 || n = 0xFEFF

/-- The method `String.prototype.trim`: white space removed from both ends. -/
def trim (s : String) : String :=
  ⟨((s.data.dropWhile isTrimSpace).reverse.dropWhile isTrimSpace).reverse⟩

/-- The method `String.prototype.includes`: `q` occurs in `s` as a contiguous run. -/
def includes (s q : String) : Bool :=
  decide (q.data <:+: s.data)

/-! ## Data model -/

/-- A value of a JSON document: a missing property (`undefined`), `null`, a boolean, a
number (by its integer value), text, or an array or object (by its JSON text). -/
inductive JSValue where
  | undefined
  | null
  | bool (b : Bool)
  | number (n : Int)
  | string (s : String)
  | object (json : String)
  deriving DecidableEq, Repr

/-- Truthiness: `undefined`, `null`, `false`, `0` and the empty text are falsy. -/
def truthy : JSValue → Bool
  | JSValue.undefined => false
  | JSValue.null => false
  | JSValue.bool b => b
  | JSValue.number n => decide (n ≠ 0)
  | JSValue.string s => decide (s ≠ "")
  | JSValue.object _ => true

/-- The operator `x || d`. -/
def orDefault (x d : JSValue) : JSValue :=
  if truthy x then x else d

/-- The JSON document the upstream serves for one comic. -/
structure Comic where
  num : Option Int
  title : JSValue
  img : JSValue
  alt : JSValue
  transcript : JSValue
  year : Option Int
  month : Option Int
  day : Option Int
  safe_title : JSValue
  deriving DecidableEq, Repr

/-- The object `processComic` builds. -/
structure Item where
  id : Option Int
  title : JSValue
  img : JSValue
  alt : JSValue
  transcript : JSValue
  year : Option Int
  month : Option Int
  day : Option Int
  safe_title : JSValue
  deriving DecidableEq, Repr

/-- The method `processComic`: every property is read off the document, and only
`transcript` has a fallback (`comic.transcript || ''`). -/
def processComic (comic : Comic) : Item :=
  { id := comic.num
    title := comic.title
    img := comic.img
    alt := comic.alt
    transcript := orDefault comic.transcript (JSValue.string "")
    year := comic.year
    month := comic.month
    day := comic.day
    safe_title := comic.safe_title }

/-! ## Cache and upstream -/

/-- Keys of `this.cache`: the text `latest` and the texts `comic-<n>`. -/
inductive CacheKey where
  | latest
  | comic (n : Int)
  deriving DecidableEq, Repr

/-- A value of `this.cache`: `{ data, timestamp }`. -/
structure CacheEntry where
  data : Item
  timestamp : Int
  deriving DecidableEq, Repr

/-- The map `this.cache`, by its lookups. -/
abbrev Cache := CacheKey → Option CacheEntry

/-- The call `this.cache.set(key, entry)`. -/
def Cache.set (c : Cache) (key : CacheKey) (entry : CacheEntry) : Cache :=
  fun k => if k = key then some entry else c k

/-- The field `this.cacheTimeout`: five minutes in milliseconds. -/
def cacheTimeout : Int := 5 * 60 * 1000

/-- What one `fetch` call yields: the promise rejects (with the error's message), or a
response arrives with its status line and the outcome of `response.json()` (the parsed
document, or the message of the parse error). -/
inductive FetchResult where
  | rejected (message : String)
  | response (status : Nat) (statusText : String) (body : Except String Comic)

/-- The property `response.ok`: the status is in `200..299`. -/
def statusOk (status : Nat) : Bool :=
  decide (200 ≤ status) && decide (status ≤ 299)

/-- The two kinds of request the service sends to `baseUrl`. -/
inductive Request where
  | latestInfo
  | comicInfo (n : Int)
  deriving DecidableEq, Repr

/-- The upstream during one operation: the answer to each request. -/
structure Upstream where
  latest : FetchResult
  byId : Int → FetchResult

/-- The result of an operation: the value or the thrown error's message, the cache it
leaves, and the requests it sent upstream. -/
structure Outcome (α : Type) where
  result : Except String α
  cache : Cache
  requests : List Request

/-- Times read from `Date.now()` by the call that resolves a key: at the cache check
and when the fetched value is stored. -/
structure Clock where
  checkAt : CacheKey → Int
  storeAt : CacheKey → Int

/-! ## The operations of `XKCDService` -/

/-- The test `cached && Date.now() - cached.timestamp < this.cacheTimeout`. -/
def freshEntry (cached : Option CacheEntry) (now : Int) : Option CacheEntry :=
  match cached with
  | some e => if now - e.timestamp < cacheTimeout then some e else none
  | none => none

/-- The method `getLatest`. -/
def getLatest (up : Upstream) (cache : Cache) (now stamp : Int) : Outcome Item :=
  match freshEntry (cache CacheKey.latest) now with
  | some cached => ⟨Except.ok cached.data, cache, []⟩
  | none =>
    match up.latest with
    | FetchResult.rejected msg =>
      ⟨Except.error ("Failed to fetch latest comic: " ++ msg), cache, [Request.latestInfo]⟩
    | FetchResult.response status statusText body =>
      if !statusOk status then
        ⟨Except.error ("Failed to fetch latest comic: " ++
            ("HTTP " ++ toString status ++ ": " ++ statusText)), cache, [Request.latestInfo]⟩
      else
        match body with
        | Except.error msg =>
          ⟨Except.error ("Failed to fetch latest comic: " ++ msg), cache,
            [Request.latestInfo]⟩
        | Except.ok comic =>
          let processedComic := processComic comic
          ⟨Except.ok processedComic,
            cache.set CacheKey.latest ⟨processedComic, stamp⟩, [Request.latestInfo]⟩

/-- The `catch` of `getById`: the not-found error is thrown again as it is, any other
error is wrapped. -/
def rethrowById (n : Int) (message : String) : String :=
  if message = "Comic not found" then message
  else "Failed to fetch comic " ++ toString n ++ ": " ++ message

/-- The method `getById`, on an integer argument. -/
def getById (up : Upstream) (cache : Cache) (now stamp : Int) (n : Int) : Outcome Item :=
  if n < 1 then ⟨Except.error "Invalid comic ID", cache, []⟩
  else
    match freshEntry (cache (CacheKey.comic n)) now with
    | some cached => ⟨Except.ok cached.data, cache, []⟩
    | none =>
      match up.byId n with
      | FetchResult.rejected msg =>
        ⟨Except.error (rethrowById n msg), cache, [Request.comicInfo n]⟩
      | FetchResult.response status statusText body =>
        if status = 404 then
          ⟨Except.error (rethrowById n "Comic not found"), cache, [Request.comicInfo n]⟩
        else if !statusOk status then
          ⟨Except.error (rethrowById n ("HTTP " ++ toString status ++ ": " ++ statusText)),
            cache, [Request.comicInfo n]⟩
        else
          match body with
          | Except.error msg =>
            ⟨Except.error (rethrowById n msg), cache, [Request.comicInfo n]⟩
          | Except.ok comic =>
            let processedComic := processComic comic
            ⟨Except.ok processedComic,
              cache.set (CacheKey.comic n) ⟨processedComic, stamp⟩, [Request.comicInfo n]⟩

/-- A value `Math.random()` can return, `mantissa / 2 ^ scale`. -/
structure Draw where
  mantissa : Nat
  scale : Nat
  deriving DecidableEq, Repr

/-- The draw is a binary64 value of `[0, 1)`: those are the `m / 2 ^ k` with
`m < 2 ^ 53` and `53 ≤ k ≤ 1074`. -/
def Draw.isDouble (d : Draw) : Prop :=
  d.mantissa < 2 ^ 53 ∧ 53 ≤ d.scale ∧ d.scale ≤ 1074

instance (d : Draw) : Decidable d.isDouble :=
  inferInstanceAs (Decidable (_ ∧ _ ∧ _))

/-- The value of `Math.floor(Math.random() * max)` for the draw `d` and an integer
`max ≥ 0`: the exact product `mantissa * max / 2 ^ scale` is rounded to binary64,
which rounds its numerator, and the floor is taken. -/
def floorProduct (d : Draw) (max : Int) : Nat :=
  roundNat (d.mantissa * max.toNat) / 2 ^ d.scale

/-- The id `getRandom` draws: `Math.floor(Math.random() * max) + 1`. -/
def randomId (d : Draw) (max : Int) : Int :=
  roundInt ((floorProduct d max : Int) + 1)

/-- The method `getRandom`, for the draw `d` of `Math.random()`. -/
def getRandom (up : Upstream) (cache : Cache) (clock : Clock) (d : Draw) : Outcome Item :=
  let l := getLatest up cache (clock.checkAt CacheKey.latest) (clock.storeAt CacheKey.latest)
  match l.result with
  | Except.error msg => ⟨Except.error ("Failed to fetch random comic: " ++ msg), l.cache, l.requests⟩
  | Except.ok latest =>
    match latest.id with
    | none =>
      ⟨Except.error ("Failed to fetch random comic: " ++ "Invalid latest comic ID"), l.cache,
        l.requests⟩
    | some max =>
      if max < 1 then
        ⟨Except.error ("Failed to fetch random comic: " ++ "Invalid latest comic ID"), l.cache,
          l.requests⟩
      else
        let id := randomId d max
        let g := getById up l.cache (clock.checkAt (CacheKey.comic id))
          (clock.storeAt (CacheKey.comic id)) id
        match g.result with
        | Except.error msg =>
          ⟨Except.error ("Failed to fetch random comic: " ++ msg), g.cache,
            l.requests ++ g.requests⟩
        | Except.ok item => ⟨Except.ok item, g.cache, l.requests ++ g.requests⟩

/-- The constant `searchRange` of `search`. -/
def searchRange : Int := 100

/-- The bound `start` of `search`: `Math.max(1, maxId - searchRange + 1)`. -/
def windowStart (maxId : Int) : Int :=
  max 1 (roundInt (roundInt (maxId - searchRange) + 1))

/-- The loop `for (let i = maxId; i >= start; i--) ids.push(i)`, from the counter `i`
and the array `ids` built so far: `none` when the loop is still running after `fuel`
iterations.  The decrement `i--` is rounded to binary64. -/
def pushIds (start : Int) : Nat → Int → List Int → Option (List Int)
  | 0, i, ids => if i ≥ start then none else some ids
  | fuel + 1, i, ids =>
    if i ≥ start then pushIds start fuel (roundInt (i - 1)) (ids ++ [i]) else some ids

/-- The array `ids` of `search` for an integer `maxId`, when the loop ends within
`fuel` iterations. -/
def windowIds (fuel : Nat) (maxId : Int) : Option (List Int) :=
  pushIds (windowStart maxId) fuel maxId []

/-- The array `ids` of `search` for the `id` of the latest item: when it is `undefined`
the bound `start` is `NaN`, the loop test is false at once and the array is empty. -/
def searchIds (fuel : Nat) (latestId : Option Int) : Option (List Int) :=
  match latestId with
  | some maxId => windowIds fuel maxId
  | none => some []

/-- The fan-out `ids.map(id => this.getById(id).catch(() => null))` followed by
`Promise.all`: one entry per id in the order of `ids` (`none` for `null`), the cache
after all calls, and the requests sent. -/
def resolveAll (up : Upstream) (clock : Clock) :
    List Int → Cache → List (Option Item) × Cache × List Request
  | [], cache => ([], cache, [])
  | id :: rest, cache =>
    let r := getById up cache (clock.checkAt (CacheKey.comic id))
      (clock.storeAt (CacheKey.comic id)) id
    let tail := resolveAll up clock rest r.cache
    (r.result.toOption :: tail.1, tail.2.1, r.requests ++ tail.2.2)

/-- The expression `(c.<property> || '').toLowerCase()`: the lower-cased text, or the
`TypeError` of calling a method that a truthy value other than text does not have. -/
def lowerOf (js : Engine) (property : String) (v : JSValue) : Except String String :=
  match orDefault v (JSValue.string "") with
  | JSValue.string s => Except.ok (js.toLowerCase s)
  | _ => Except.error (js.typeErrorMessage property)

/-- The predicate of `comics.filter(...)` in `search`, for the normalised query `q`:
both texts are computed, the title first, before either is searched. -/
def matchesQuery (js : Engine) (q : String) (c : Item) : Except String Bool :=
  match lowerOf js "title" c.title with
  | Except.error e => Except.error e
  | Except.ok title =>
    match lowerOf js "transcript" c.transcript with
    | Except.error e => Except.error e
    | Except.ok transcript => Except.ok (includes title q || includes transcript q)

/-- The call `comics.filter(...)`: the items are tested in order and the first error
thrown by the predicate ends the call. -/
def filterMatches (js : Engine) (q : String) : List Item → Except String (List Item)
  | [] => Except.ok []
  | c :: rest =>
    match matchesQuery js q c with
    | Except.error e => Except.error e
    | Except.ok keep =>
      match filterMatches js q rest with
      | Except.error e => Except.error e
      | Except.ok kept => Except.ok (if keep then c :: kept else kept)

/-- The object `pagination` of a search result. -/
structure Pagination where
  page : Int
  limit : Int
  offset : JSNum
  totalPages : JSNum
  deriving DecidableEq, Repr

/-- The object `search` returns. -/
structure SearchResult where
  query : String
  results : List Item
  total : Nat
  pagination : Pagination
  deriving DecidableEq, Repr

/-- The value of `Math.max(1, Number(page) || 1)` for an integer `page`. -/
def requestedPage (page : Int) : Int :=
  max 1 (if page = 0 then 1 else page)

/-- The tail of `search`, from `const total = matched.length` to the returned object,
for integers `page` and `limit` (a zero being `+0`). -/
def paginate (query : String) (matched : List Item) (page limit : Int) : SearchResult :=
  let total := matched.length
  let totalPages := maxOne (ceilDiv total limit)
  let requestedPage := requestedPage page
  let offset := mulNum (roundDouble (requestedPage - 1)) limit
  let paged := slice matched offset (addNum offset limit)
  { query := query
    results := paged
    total := total
    pagination := { page := requestedPage, limit := limit, offset := offset,
                    totalPages := totalPages } }

/-- The method `search`, on a text `query` and integers `page` and `limit`; `none` when
the loop that collects the ids is still running after `fuel` iterations. -/
def search (js : Engine) (fuel : Nat) (up : Upstream) (cache : Cache) (clock : Clock)
    (query : String) (page limit : Int) : Option (Outcome SearchResult) :=
  if query = "" then some ⟨Except.error "Invalid query", cache, []⟩
  else
    let l := getLatest up cache (clock.checkAt CacheKey.latest) (clock.storeAt CacheKey.latest)
    match l.result with
    | Except.error msg => some ⟨Except.error ("Search failed: " ++ msg), l.cache, l.requests⟩
    | Except.ok latest =>
      match searchIds fuel latest.id with
      | none => none
      | some ids =>
        let fanOut := resolveAll up clock ids l.cache
        let comics := fanOut.1.filterMap id
        let q := js.toLowerCase (trim query)
        match filterMatches js q comics with
        | Except.error msg =>
          some ⟨Except.error ("Search failed: " ++ msg), fanOut.2.1, l.requests ++ fanOut.2.2⟩
        | Except.ok matched =>
          some ⟨Except.ok (paginate query matched page limit), fanOut.2.1,
            l.requests ++ fanOut.2.2⟩

/-! ## The error handler -/

/-- The properties of a thrown error that `errorHandler` reads. -/
structure ErrorInfo where
  name : String
  message : String
  isSyntaxError : Bool
  status : Option Nat
  hasBody : Bool
  isOperational : Bool
  statusCode : Option Nat

/-- An error made by `new Error(message)`, as the service throws them. -/
def plainError (message : String) : ErrorInfo :=
  { name := "Error", message := message, isSyntaxError := false, status := none,
    hasBody := false, isOperational := false, statusCode := none }

/-- The status code `errorHandler` answers with. -/
def errorHandlerStatus (err : ErrorInfo) : Nat :=
  if err.name = "ValidationError" then 400
  else if err.isSyntaxError && err.status = some 400 && err.hasBody then 400
  else if err.message = "Comic not found" then 404
  else if err.message = "Invalid comic ID" then 400
  else
    match err.isOperational, err.statusCode with
    | true, some code => if code = 0 then 500 else code
    | _, _ => 500

/-! ## What the route layer and the specification add -/

/-- The validator of the `limit` parameter in `routes/comics.js`,
`isInt({ min: 1, max: 50 })`, on an integer. -/
def limitAccepted (limit : Int) : Bool :=
  decide (1 ≤ limit) && decide (limit ≤ 50)

/-- The specification's trimmed query: `t` is `query` with white space taken off both
ends, that is, `query` is `t` between two runs of white space and `t` neither starts
nor ends with white space. -/
def IsTrimmed (t query : String) : Prop :=
  ∃ before after : List Char, query.data = before ++ t.data ++ after ∧
    (∀ c ∈ before, isTrimSpace c = true) ∧ (∀ c ∈ after, isTrimSpace c = true) ∧
    (∀ c, t.data.head? = some c → isTrimSpace c = false) ∧
    (∀ c, t.data.getLast? = some c → isTrimSpace c = false)

/-- The specification's text of a field: the text it holds, the empty text when it
holds none. -/
def textOf (v : JSValue) : String :=
  match v with
  | JSValue.string s => s
  | _ => ""

/-- The specification's comparison: `t`, compared case-insensitively (both sides in
lower case), is a substring of `text`. -/
def ContainsIgnoringCase (js : Engine) (text t : String) : Prop :=
  (js.toLowerCase t).data <:+: (js.toLowerCase text).data

instance (js : Engine) (text t : String) : Decidable (ContainsIgnoringCase js text t) :=
  inferInstanceAs (Decidable (_ <:+: _))

/-- The specification's matching rule, with the query trimmed: the trimmed query is a
case-insensitive substring of the title or of the transcript. -/
def SpecMatches (js : Engine) (query : String) (item : Item) : Prop :=
  ∃ t : String, IsTrimmed t query ∧
    (ContainsIgnoringCase js (textOf item.title) t ∨
      ContainsIgnoringCase js (textOf item.transcript) t)

/-- A field value on which `(c.<property> || '').toLowerCase()` does not throw: text,
or a falsy value. -/
def textOrFalsy (v : JSValue) : Bool :=
  match v with
  | JSValue.string _ => true
  | other => !truthy other

/-- The outcome of one entry of the fan-out of `search`, on the cache `c0` that
`getLatest` left: `this.getById(id).catch(() => null)`. -/
def resolveOne (up : Upstream) (clock : Clock) (c0 : Cache) (id : Int) : Option Item :=
  (getById up c0 (clock.checkAt (CacheKey.comic id)) (clock.storeAt (CacheKey.comic id))
    id).result.toOption

/-! ## Sample inputs -/

/-- An engine that lower-cases the letters `A`-`Z`, which is what the built-in does on
ASCII text, with the wording of V8 for the `TypeError`. -/
def sampleEngine : Engine :=
  { toLowerCase := fun s => ⟨s.data.map Char.toLower⟩
    typeErrorMessage := fun property =>
      "(c." ++ property ++ " || \"\").toLowerCase is not a function" }

/-- A cache without entries. -/
def emptyCache : Cache := fun _ => none

/-- A document with the given number, title and transcript. -/
def sampleComic (n : Int) (title transcript : String) : Comic :=
  ⟨some n, JSValue.string title, JSValue.string "https://imgs.xkcd.com/x.png",
    JSValue.string "alt", JSValue.string transcript, some 2024, some 1, some 1,
    JSValue.string title⟩

/-- An upstream whose latest comic is 3; comic 3 resolves, comic 2 is not found and
every other request fails in the network. -/
def sampleUpstream : Upstream :=
  { latest := FetchResult.response 200 "OK" (Except.ok (sampleComic 3 "Spider" "web"))
    byId := fun n =>
      if n = 3 then FetchResult.response 200 "OK" (Except.ok (sampleComic 3 "Spider" "web"))
      else if n = 2 then FetchResult.response 404 "Not Found" (Except.error "Unexpected token")
      else FetchResult.rejected "network down" }

/-- The sample upstream, but with the number 123 as the title of comic 3. -/
def numericTitleUpstream : Upstream :=
  { latest := FetchResult.response 200 "OK" (Except.ok (sampleComic 3 "Spider" "web"))
    byId := fun n =>
      if n = 3 then FetchResult.response 200 "OK"
        (Except.ok { sampleComic 3 "Spider" "web" with title := JSValue.number 123 })
      else if n = 2 then FetchResult.response 404 "Not Found" (Except.error "Unexpected token")
      else FetchResult.rejected "network down" }

/-- A clock that reads 0 at every cache check and 10 at every store. -/
def sampleClock : Clock := ⟨fun _ => 0, fun _ => 10⟩

/-- A cache whose only entries are one for comic 3 and one for `latest`, both stored at
time 0. -/
def staleCache : Cache :=
  fun k => if k = CacheKey.comic 3 ∨ k = CacheKey.latest
    then some ⟨processComic (sampleComic 3 "Old" "old"), 0⟩ else none

end XKCD

namespace XKCD

/-! ## Rounding to binary64 -/

theorem halvings_small (fuel n : Nat) (h : n < 2 ^ 53) : halvings fuel n = 0 := by
  cases fuel with
  | zero => rfl
  | succ fuel => simp only [halvings, h, if_true]

theorem halvings_spec : ∀ (fuel n : Nat), n ≤ fuel → 2 ^ 53 ≤ n →
    2 ^ (52 + halvings fuel n) ≤ n ∧ n < 2 ^ (53 + halvings fuel n) ∧
      1 ≤ halvings fuel n := by
  intro fuel
  induction fuel with
  | zero =>
    intro n h0 h53
    have : (0 : Nat) < 2 ^ 53 := by decide
    omega
  | succ fuel ih =>
    intro n hfuel h53
    have hnot : ¬ n < 2 ^ 53 := by omega
    simp only [halvings, hnot, if_false]
    by_cases hhalf : n / 2 < 2 ^ 53
    · rw [halvings_small fuel (n / 2) hhalf]
      have e1 : (2 : Nat) ^ (52 + (0 + 1)) = 2 ^ 53 := by decide
      have e2 : (2 : Nat) ^ (53 + (0 + 1)) = 2 ^ 53 * 2 := by decide
      rw [e1, e2]
      omega
    · have h2 : 2 ^ 53 ≤ n / 2 := by omega
      have hle : n / 2 ≤ fuel := by omega
      obtain ⟨ha, hb, _⟩ := ih (n / 2) hle h2
      have e1 : (2 : Nat) ^ (52 + (halvings fuel (n / 2) + 1))
          = 2 ^ (52 + halvings fuel (n / 2)) * 2 := by
        rw [← Nat.add_assoc, Nat.pow_succ]
      have e2 : (2 : Nat) ^ (53 + (halvings fuel (n / 2) + 1))
          = 2 ^ (53 + halvings fuel (n / 2)) * 2 := by
        rw [← Nat.add_assoc, Nat.pow_succ]
      rw [e1, e2]
      omega

/-- At and above `2 ^ 53` the spacing exponent `s` of `n` is at least 1 and places `n`
in `[2 ^ (52 + s), 2 ^ (53 + s))`. -/
theorem spacingExp_spec (n : Nat) (h : 2 ^ 53 ≤ n) :
    2 ^ (52 + spacingExp n) ≤ n ∧ n < 2 ^ (53 + spacingExp n) ∧ 1 ≤ spacingExp n :=
  halvings_spec n n (le_refl n) h

theorem spacingExp_small (n : Nat) (h : n < 2 ^ 53) : spacingExp n = 0 :=
  halvings_small n n h

/-- The spacing exponent is below `k` as soon as `n < 2 ^ (53 + k)`. -/
theorem spacingExp_le (n k : Nat) (h : n < 2 ^ (53 + k)) : spacingExp n ≤ k := by
  by_cases h53 : n < 2 ^ 53
  · rw [spacingExp_small n h53]; exact Nat.zero_le _
  · obtain ⟨ha, _, _⟩ := spacingExp_spec n (by omega)
    by_contra hlt
    have hk : 53 + k ≤ 52 + spacingExp n := by omega
    have : 2 ^ (53 + k) ≤ 2 ^ (52 + spacingExp n) :=
      Nat.pow_le_pow_right (by decide) hk
    omega

/-- Rounding a natural number at or above `2 ^ 53`: the result is the multiple of the
spacing just below `n` or the one just above, and the one above only when the
remainder is at least half the spacing. -/
theorem roundNat_cases (n : Nat) (h : 2 ^ 53 ≤ n) :
    roundNat n = n / 2 ^ spacingExp n * 2 ^ spacingExp n ∨
    (roundNat n = (n / 2 ^ spacingExp n + 1) * 2 ^ spacingExp n ∧
      2 ^ (spacingExp n - 1) ≤ n % 2 ^ spacingExp n) := by
  have hnot : ¬ n < 2 ^ 53 := by omega
  simp only [roundNat, hnot, if_false]
  split
  · left; rfl
  · split
    · right; exact ⟨rfl, by omega⟩
    · split
      · left; rfl
      · right; exact ⟨rfl, by omega⟩

theorem roundNat_of_lt (n : Nat) (h : n < 2 ^ 53) : roundNat n = n := by
  simp only [roundNat, h, if_true]

/-- Every natural number up to `2 ^ 53` is a binary64 value. -/
theorem roundNat_of_le (n : Nat) (h : n ≤ 2 ^ 53) : roundNat n = n := by
  rcases Nat.lt_or_ge n (2 ^ 53) with hlt | hge
  · exact roundNat_of_lt n hlt
  · have e : n = 2 ^ 53 := by omega
    subst e
    decide

/-- Every integer of magnitude up to `2 ^ 53` is a binary64 value. -/
theorem roundInt_of_le (z : Int) (hlo : -(2 ^ 53) ≤ z) (hhi : z ≤ 2 ^ 53) :
    roundInt z = z := by
  have hn : z.natAbs ≤ 2 ^ 53 := by omega
  simp only [roundInt, roundNat_of_le _ hn]
  split <;> omega

theorem roundDouble_of_le (z : Int) (hlo : -(2 ^ 53) ≤ z) (hhi : z ≤ 2 ^ 53) :
    roundDouble z = JSNum.fin z := by
  have hn : z.natAbs ≤ 2 ^ 53 := by omega
  have hs : spacingExp (roundNat z.natAbs) ≤ 1 := by
    rw [roundNat_of_le _ hn]
    apply spacingExp_le
    have : (2 : Nat) ^ 53 < 2 ^ (53 + 1) := by decide
    omega
  have hnot : ¬ 972 ≤ spacingExp (roundNat z.natAbs) := by omega
  simp only [roundDouble, hnot, if_false, roundInt_of_le z hlo hhi]

/-- A binary64 value at or above `2 ^ 53` is even. -/
theorem roundNat_even (n : Nat) (h : 2 ^ 53 ≤ n) : 2 ∣ roundNat n := by
  obtain ⟨_, _, hs⟩ := spacingExp_spec n h
  have h2 : 2 ∣ 2 ^ spacingExp n := by
    obtain ⟨k, hk⟩ : ∃ k, spacingExp n = k + 1 := ⟨spacingExp n - 1, by omega⟩
    rw [hk, Nat.pow_succ]
    exact Nat.dvd_mul_left 2 _
  rcases roundNat_cases n h with e | ⟨e, _⟩
  · rw [e]; exact Dvd.dvd.mul_left h2 _
  · rw [e]; exact Dvd.dvd.mul_left h2 _

/-- Rounding moves a natural number by at most half the spacing upwards, and never
below the multiple of the spacing under it. -/
theorem roundNat_bounds (n : Nat) (h : 2 ^ 53 ≤ n) :
    n / 2 ^ spacingExp n * 2 ^ spacingExp n ≤ roundNat n ∧
    roundNat n ≤ n + 2 ^ (spacingExp n - 1) := by
  obtain ⟨_, _, hs⟩ := spacingExp_spec n h
  have hdm := Nat.div_add_mod n (2 ^ spacingExp n)
  have hpow : 2 ^ spacingExp n = 2 ^ (spacingExp n - 1) * 2 := by
    obtain ⟨k, hk⟩ : ∃ k, spacingExp n = k + 1 := ⟨spacingExp n - 1, by omega⟩
    rw [hk, Nat.pow_succ]; simp
  have hcomm : 2 ^ spacingExp n * (n / 2 ^ spacingExp n)
      = n / 2 ^ spacingExp n * 2 ^ spacingExp n := Nat.mul_comm _ _
  rcases roundNat_cases n h with e | ⟨e, hr⟩
  · rw [e]
    constructor
    · exact le_refl _
    · omega
  · rw [e, Nat.add_mul, Nat.one_mul]
    constructor
    · omega
    · omega

end XKCD

namespace XKCD

/-! ## Pagination -/

theorem slice_window {α : Type} (xs : List α) (o l : Int) (ho : 0 ≤ o) (hl : 0 ≤ l) :
    slice xs (JSNum.fin o) (JSNum.fin (o + l)) = (xs.drop o.toNat).take l.toNat := by
  obtain ⟨a, rfl⟩ := Int.eq_ofNat_of_zero_le ho
  obtain ⟨b, rfl⟩ := Int.eq_ofNat_of_zero_le hl
  have h1 : ¬ ((a : Int) < 0) := by omega
  have h2 : ¬ ((a : Int) + (b : Int) < 0) := by omega
  have h3 : ((a : Int) + (b : Int)).toNat = a + b := by omega
  simp only [slice, relativeIndex, h1, h2, if_false, Int.toNat_ofNat, h3]
  rcases Nat.lt_or_ge a xs.length with h | h
  · rw [Nat.min_eq_left h.le]
    rcases Nat.le_total (a + b) xs.length with h' | h'
    · rw [Nat.min_eq_left h', Nat.add_sub_cancel_left]
    · rw [Nat.min_eq_right h']
      rw [List.take_of_length_le (by simp), List.take_of_length_le (by simp; omega)]
  · rw [Nat.min_eq_right h, List.drop_of_length_le h, List.drop_of_length_le (le_refl _)]
    simp

theorem requestedPage_eq (page : Int) : requestedPage page = max 1 page := by
  unfold requestedPage
  split <;> omega

theorem floor_div_pos (x b : Int) (hb : 0 < b) : ⌊(x : ℚ) / (b : ℚ)⌋ = x / b := by
  obtain ⟨d, rfl⟩ := Int.eq_ofNat_of_zero_le hb.le
  exact Rat.floor_intCast_div_natCast x d

/-- The integer expression inside `ceilDiv` is the ceiling of the exact quotient. -/
theorem neg_fdiv_neg_eq_ceil (a : Nat) (b : Int) (hb : b ≠ 0) :
    -(Int.fdiv (-(a : Int)) b) = ⌈(a : ℚ) / (b : ℚ)⌉ := by
  rcases lt_or_gt_of_ne hb with h | h
  · obtain ⟨n, rfl⟩ := Int.eq_negSucc_of_lt_zero h
    cases a with
    | zero => simp [Int.fdiv]
    | succ m =>
      have e1 : Int.fdiv (-((m + 1 : Nat) : Int)) (Int.negSucc n)
          = ((m + 1) / (n + 1) : Nat) := rfl
      rw [e1]
      have e2 : ((m + 1 : Nat) : ℚ) / ((Int.negSucc n : Int) : ℚ)
          = -((((m + 1 : Nat) : Int) : ℚ) / ((n + 1 : Nat) : ℚ)) := by
        rw [Int.cast_negSucc]; push_cast; rw [div_neg]
      rw [e2, Int.ceil_neg, Rat.floor_intCast_div_natCast]
      push_cast; rfl
  · rw [Int.fdiv_eq_ediv _ h.le, ← floor_div_pos _ _ h, ← Int.ceil_neg]
    congr 1
    push_cast
    ring

theorem ceilDiv_of_ne_zero (a : Nat) (b : Int) (hb : b ≠ 0) :
    ceilDiv a b = JSNum.fin ⌈(a : ℚ) / (b : ℚ)⌉ := by
  simp only [ceilDiv, hb, if_false, neg_fdiv_neg_eq_ceil a b hb]

/-- The offset and the end of the window that `paginate` computes are exact when the
page, the offset and the end of the window are at most `2 ^ 53` in magnitude. -/
theorem paginate_exact (query : String) (matched : List Item) (page limit : Int)
    (hpage : max 1 page - 1 ≤ 2 ^ 53)
    (hlo : -(2 ^ 53) ≤ (max 1 page - 1) * limit) (hhi : (max 1 page - 1) * limit ≤ 2 ^ 53)
    (hlo2 : -(2 ^ 53) ≤ (max 1 page - 1) * limit + limit)
    (hhi2 : (max 1 page - 1) * limit + limit ≤ 2 ^ 53) :
    (paginate query matched page limit).pagination.offset
      = JSNum.fin ((max 1 page - 1) * limit) ∧
    (paginate query matched page limit).results
      = slice matched (JSNum.fin ((max 1 page - 1) * limit))
          (JSNum.fin ((max 1 page - 1) * limit + limit)) := by
  have h1 : roundDouble (max 1 page - 1) = JSNum.fin (max 1 page - 1) :=
    roundDouble_of_le _ (by omega) hpage
  have h2 : mulNum (JSNum.fin (max 1 page - 1)) limit
      = JSNum.fin ((max 1 page - 1) * limit) := by
    simp only [mulNum, roundDouble_of_le _ hlo hhi]
  have h3 : addNum (JSNum.fin ((max 1 page - 1) * limit)) limit
      = JSNum.fin ((max 1 page - 1) * limit + limit) := by
    simp only [addNum, roundDouble_of_le _ hlo2 hhi2]
  simp only [paginate, requestedPage_eq, h1, h2, h3, and_self]

/-- C1, counterexample. Page 9007199254740991 and page size 3, both integers of the
language and both accepted by the route, give the offset 27021597764222968, which is
not `(page - 1) * pageSize = 27021597764222970`: the product is rounded. -/
theorem paginate_offset_counterexample :
    (1 : Int) ≤ 3 ∧ limitAccepted 3 = true ∧
    roundInt 9007199254740991 = 9007199254740991 ∧
    (paginate "q" [] 9007199254740991 3).pagination.offset
      = JSNum.fin 27021597764222968 ∧
    (paginate "q" [] 9007199254740991 3).pagination.offset
      ≠ JSNum.fin ((max 1 9007199254740991 - 1) * 3) := by
  decide

/-- C1, amended. For a page size of at least 1 and a page with
`max(1, page) * pageSize ≤ 2 ^ 53`, `search` paginates the matched list as the
reference does: the page is `max(1, page)`, the offset `(page - 1) * pageSize`, the
results are the sub-list at positions `[offset, offset + pageSize)`, of length
`min(pageSize, max(0, total - offset))`, `total` is the matched count and `totalPages`
is `max(1, ceil(total / pageSize))`; a page of 0 or less gives what page 1 gives, and
25 matches with page size 10 and page 3 give 5 items, 3 pages and offset 20. -/
theorem paginate_reference (query : String) (matched : List Item) (page limit : Int)
    (hlimit : 1 ≤ limit) (hsafe : max 1 page * limit ≤ 2 ^ 53) :
    (paginate query matched page limit).pagination.page = max 1 page ∧
    (paginate query matched page limit).pagination.offset
      = JSNum.fin ((max 1 page - 1) * limit) ∧
    (paginate query matched page limit).results
      = (matched.drop ((max 1 page - 1) * limit).toNat).take limit.toNat ∧
    ((paginate query matched page limit).results.length : Int)
      = min limit (max 0 ((matched.length : Int) - (max 1 page - 1) * limit)) ∧
    (paginate query matched page limit).total = matched.length ∧
    (paginate query matched page limit).pagination.totalPages
      = JSNum.fin (max 1 ⌈(matched.length : ℚ) / (limit : ℚ)⌉) ∧
    (page ≤ 0 → paginate query matched page limit = paginate query matched 1 limit) ∧
    (matched.length = 25 → limit = 10 → page = 3 →
      (paginate query matched page limit).results.length = 5 ∧
      (paginate query matched page limit).pagination.totalPages = JSNum.fin 3 ∧
      (paginate query matched page limit).pagination.offset = JSNum.fin 20) := by
  have hp1 : 1 ≤ max 1 page := le_max_left _ _
  have hoff : 0 ≤ (max 1 page - 1) * limit :=
    Int.mul_nonneg (by omega) (by omega)
  have hsum : (max 1 page - 1) * limit + limit = max 1 page * limit := by ring
  have hple : max 1 page ≤ max 1 page * limit := by
    have := Int.mul_le_mul_of_nonneg_left hlimit (by omega : (0 : Int) ≤ max 1 page)
    simpa using this
  obtain ⟨hoffset, hslice⟩ := paginate_exact query matched page limit (by omega)
    (by omega) (by omega) (by omega) (by omega)
  have hres : (paginate query matched page limit).results
      = (matched.drop ((max 1 page - 1) * limit).toNat).take limit.toNat := by
    rw [hslice]
    exact slice_window matched _ limit hoff (by omega)
  have hlen : ((paginate query matched page limit).results.length : Int)
      = min limit (max 0 ((matched.length : Int) - (max 1 page - 1) * limit)) := by
    rw [hres, List.length_take, List.length_drop]
    omega
  have hpages : (paginate query matched page limit).pagination.totalPages
      = JSNum.fin (max 1 ⌈(matched.length : ℚ) / (limit : ℚ)⌉) := by
    simp only [paginate, ceilDiv_of_ne_zero matched.length limit (by omega), maxOne]
  refine ⟨by simp [paginate, requestedPage_eq], hoffset, hres, hlen, rfl, hpages, ?_, ?_⟩
  · intro hp
    have e : requestedPage page = requestedPage 1 := by
      rw [requestedPage_eq, requestedPage_eq]; omega
    simp only [paginate, e]
  · intro h25 h10 h3
    subst h10 h3
    refine ⟨?_, ?_, ?_⟩
    · have := hlen
      rw [h25] at this
      have e : max (1 : Int) 3 = 3 := by decide
      rw [e] at this
      omega
    · simp only [paginate, ceilDiv, maxOne, h25]
      decide
    · rw [hoffset]
      decide

/-- Witness of C1, amended: 25 matched items, page size 10, page 3. -/
theorem paginate_reference_witness :
    (1 : Int) ≤ 10 ∧ max 1 3 * (10 : Int) ≤ 2 ^ 53 ∧
    (paginate "spider" (List.replicate 25 (processComic
        ⟨some 1, JSValue.string "Spider", JSValue.undefined, JSValue.undefined,
          JSValue.undefined, none, none, none, JSValue.undefined⟩)) 3 10).results.length
      = 5 ∧
    (paginate "spider" (List.replicate 25 (processComic
        ⟨some 1, JSValue.string "Spider", JSValue.undefined, JSValue.undefined,
          JSValue.undefined, none, none, none, JSValue.undefined⟩)) 3 10).pagination.totalPages
      = JSNum.fin 3 ∧
    (paginate "spider" (List.replicate 25 (processComic
        ⟨some 1, JSValue.string "Spider", JSValue.undefined, JSValue.undefined,
          JSValue.undefined, none, none, none, JSValue.undefined⟩)) 3 10).pagination.offset
      = JSNum.fin 20 :=
  ⟨by decide, by decide,
    (paginate_reference "spider" (List.replicate 25 (processComic
        ⟨some 1, JSValue.string "Spider", JSValue.undefined, JSValue.undefined,
          JSValue.undefined, none, none, none, JSValue.undefined⟩)) 3 10
      (by decide) (by decide)).2.2.2.2.2.2.2 (by simp) rfl rfl⟩

theorem slice_negative_stop {α : Type} (xs : List α) (l : Int) (hl : l < 0) :
    slice xs (JSNum.fin 0) (JSNum.fin (0 + l)) = xs.take ((xs.length : Int) + l).toNat := by
  have h0 : ¬ ((0 : Int) < 0) := by decide
  have h1 : (0 : Int) + l < 0 := by omega
  simp only [slice, relativeIndex, h0, h1, if_true, if_false, Int.toNat_zero,
    Nat.zero_min, List.drop_zero, Nat.sub_zero]
  congr 1
  omega

theorem slice_negative_start {α : Type} (xs : List α) (o l : Int) (ho : o < 0)
    (hl : l < 0) : slice xs (JSNum.fin o) (JSNum.fin (o + l)) = [] := by
  have h1 : o + l < 0 := by omega
  simp only [slice, relativeIndex, ho, h1, if_true]
  have : (max ((xs.length : Int) + (o + l)) 0).toNat - (max ((xs.length : Int) + o) 0).toNat
      = 0 := by omega
  rw [this, List.take_zero]

/-- C8, counterexample. With three matched items, page 1 and page size -1 the results
hold two items and `totalPages` is 1, not `max(1, total) = 3`; with page 3 and page
size 0 the offset is 0, not 2, and `totalPages` is `Infinity`. -/
theorem paginate_nonpositive_counterexample :
    ¬ ((paginate "q" (List.replicate 3 (processComic
          ⟨some 1, JSValue.string "q", JSValue.undefined, JSValue.undefined,
            JSValue.undefined, none, none, none, JSValue.undefined⟩)) 1 (-1)).results.length
        ≤ 1) ∧
    (paginate "q" (List.replicate 3 (processComic
        ⟨some 1, JSValue.string "q", JSValue.undefined, JSValue.undefined,
          JSValue.undefined, none, none, none, JSValue.undefined⟩)) 1 (-1)).pagination.totalPages
      ≠ JSNum.fin (max 1 3) ∧
    (paginate "q" (List.replicate 3 (processComic
        ⟨some 1, JSValue.string "q", JSValue.undefined, JSValue.undefined,
          JSValue.undefined, none, none, none, JSValue.undefined⟩)) 3 0).pagination.offset
      ≠ JSNum.fin (max 1 3 - 1) ∧
    (paginate "q" (List.replicate 3 (processComic
        ⟨some 1, JSValue.string "q", JSValue.undefined, JSValue.undefined,
          JSValue.undefined, none, none, none, JSValue.undefined⟩)) 3 0).pagination.totalPages
      = JSNum.infinity := by
  decide

/-- C8, amended. `search` applies no floor to the page size (the route rejects a
`limit` outside 1..50 before calling it). Called with a page size of 0 or less, a page
of at most `2 ^ 53` and `max(1, page) * |pageSize| ≤ 2 ^ 53`, it still returns a
result: the page is `max(1, page)`, `total` the matched count, the offset
`(page - 1) * pageSize`, which is 0 or negative; for page size 0 the results are empty
and `totalPages` is `NaN` (no match) or `Infinity`; for a negative page size
`totalPages` is 1 and the results are the first `total + pageSize` matched items on
page 1 and empty on every later page. -/
theorem paginate_nonpositive (query : String) (matched : List Item) (page limit : Int)
    (hlimit : limit ≤ 0) (hpage : page ≤ 2 ^ 53)
    (hsafe : max 1 page * (-limit) ≤ 2 ^ 53) :
    limitAccepted limit = false ∧
    (paginate query matched page limit).pagination.page = max 1 page ∧
    (paginate query matched page limit).total = matched.length ∧
    (paginate query matched page limit).pagination.offset
      = JSNum.fin ((max 1 page - 1) * limit) ∧
    (max 1 page - 1) * limit ≤ 0 ∧
    (limit = 0 →
      (paginate query matched page limit).results = [] ∧
      (paginate query matched page limit).pagination.totalPages
        = if matched.length = 0 then JSNum.nan else JSNum.infinity) ∧
    (limit < 0 →
      (paginate query matched page limit).pagination.totalPages = JSNum.fin 1 ∧
      (paginate query matched page limit).results
        = if page ≤ 1 then matched.take ((matched.length : Int) + limit).toNat else []) := by
  have hp : 0 ≤ max 1 page - 1 := by omega
  have hoffle : (max 1 page - 1) * limit ≤ 0 :=
    Int.mul_nonpos_of_nonneg_of_nonpos hp hlimit
  have hsum : (max 1 page - 1) * limit + limit = -(max 1 page * (-limit)) := by ring
  have hge : (max 1 page - 1) * limit + limit ≤ (max 1 page - 1) * limit := by omega
  obtain ⟨hoffset, hslice⟩ := paginate_exact query matched page limit (by omega)
    (by omega) (by omega) (by omega) (by omega)
  refine ⟨?_, by simp [paginate, requestedPage_eq], rfl, hoffset, hoffle, ?_, ?_⟩
  · simp only [limitAccepted, Bool.and_eq_false_iff, decide_eq_false_iff_not]
    left; omega
  · intro h0
    subst h0
    refine ⟨?_, ?_⟩
    · rw [hslice]
      simp only [mul_zero, add_zero, slice, Nat.sub_self, List.take_zero]
    · simp only [paginate, ceilDiv, if_true]
      by_cases hm : matched.length = 0
      · simp only [hm, if_true, maxOne]
      · simp only [hm, if_false, maxOne]
  · intro hneg
    refine ⟨?_, ?_⟩
    · have hc : ⌈(matched.length : ℚ) / (limit : ℚ)⌉ ≤ 0 := by
        rw [Int.ceil_le]
        exact div_nonpos_of_nonneg_of_nonpos (by positivity) (by exact_mod_cast hlimit)
      simp only [paginate, ceilDiv_of_ne_zero matched.length limit (by omega), maxOne]
      congr 1
      omega
    · rw [hslice]
      by_cases h1 : page ≤ 1
      · have e : max 1 page - 1 = 0 := by omega
        rw [e, zero_mul, if_pos h1]
        exact slice_negative_stop matched limit hneg
      · have e : (max 1 page - 1) * limit < 0 :=
          Int.mul_neg_of_pos_of_neg (by omega) hneg
        rw [if_neg h1]
        exact slice_negative_start matched _ limit e hneg

/-- Witness of C8, amended: five matched items, page 1, page size -2. -/
theorem paginate_nonpositive_witness :
    (-2 : Int) ≤ 0 ∧ (1 : Int) ≤ 2 ^ 53 ∧ max 1 1 * (-(-2 : Int)) ≤ 2 ^ 53 ∧
    (paginate "q" (List.replicate 5 (processComic
        ⟨some 1, JSValue.string "q", JSValue.undefined, JSValue.undefined,
          JSValue.undefined, none, none, none, JSValue.undefined⟩)) 1 (-2)).pagination.page
      = max 1 1 :=
  ⟨by decide, by decide, by decide,
    (paginate_nonpositive "q" (List.replicate 5 (processComic
        ⟨some 1, JSValue.string "q", JSValue.undefined, JSValue.undefined,
          JSValue.undefined, none, none, none, JSValue.undefined⟩)) 1 (-2)
      (by decide) (by decide) (by decide)).2.1⟩

end XKCD

namespace XKCD

/-! ## Normalisation -/

/-- C9, counterexample. For a document that has only `num`, the item's `title`, `alt`,
`img` and `safe_title` are `undefined`, not the empty string. -/
theorem processComic_absent_counterexample :
    (processComic ⟨some 7, JSValue.undefined, JSValue.undefined, JSValue.undefined,
        JSValue.undefined, none, none, none, JSValue.undefined⟩).title
      ≠ JSValue.string "" ∧
    (processComic ⟨some 7, JSValue.undefined, JSValue.undefined, JSValue.undefined,
        JSValue.undefined, none, none, none, JSValue.undefined⟩).alt
      ≠ JSValue.string "" ∧
    (processComic ⟨some 7, JSValue.undefined, JSValue.undefined, JSValue.undefined,
        JSValue.undefined, none, none, none, JSValue.undefined⟩).img
      ≠ JSValue.string "" ∧
    (processComic ⟨some 7, JSValue.undefined, JSValue.undefined, JSValue.undefined,
        JSValue.undefined, none, none, none, JSValue.undefined⟩).safe_title
      ≠ JSValue.string "" := by
  decide

/-- C9, amended. `processComic` gives the empty string for an absent `transcript` and
copies a present one unchanged; every other field (`num` to `id`, `title`, `img`,
`alt`, `year`, `month`, `day`, `safe_title`) is copied as it is, so a present one is
unchanged and an absent one stays absent. A `transcript` that is not text is copied
when it is truthy and replaced by the empty string when it is falsy. -/
theorem processComic_fields (comic : Comic) :
    (comic.transcript = JSValue.undefined →
      (processComic comic).transcript = JSValue.string "") ∧
    (∀ s, comic.transcript = JSValue.string s →
      (processComic comic).transcript = JSValue.string s) ∧
    (processComic comic).id = comic.num ∧
    (processComic comic).title = comic.title ∧
    (processComic comic).img = comic.img ∧
    (processComic comic).alt = comic.alt ∧
    (processComic comic).year = comic.year ∧
    (processComic comic).month = comic.month ∧
    (processComic comic).day = comic.day ∧
    (processComic comic).safe_title = comic.safe_title ∧
    (truthy comic.transcript = true →
      (processComic comic).transcript = comic.transcript) ∧
    (truthy comic.transcript = false →
      (processComic comic).transcript = JSValue.string "") := by
  refine ⟨?_, ?_, rfl, rfl, rfl, rfl, rfl, rfl, rfl, rfl, ?_, ?_⟩
  · intro h
    simp [processComic, orDefault, truthy, h]
  · intro s h
    simp only [processComic, orDefault, truthy, h]
    by_cases hs : s = ""
    · simp [hs]
    · simp [hs]
  · intro h
    simp [processComic, orDefault, h]
  · intro h
    simp [processComic, orDefault, h]

end XKCD

namespace XKCD

/-! ## The search window -/

/-- From a counter of at most `2 ^ 53` and a bound of at least 1, the loop appends
`i, i - 1, ..., start` to `ids` and ends, given that many iterations or more. -/
theorem pushIds_eq (start : Int) (hstart : 1 ≤ start) (fuel : Nat) :
    ∀ (i : Int) (ids : List Int), i ≤ 2 ^ 53 → (i - start + 1).toNat ≤ fuel →
      pushIds start fuel i ids
        = some (ids ++ (List.range (i - start + 1).toNat).map (fun k : Nat => i - (k : Int))) := by
  induction fuel with
  | zero =>
    intro i ids _ h
    have h0 : (i - start + 1).toNat = 0 := by omega
    have hlt : ¬ i ≥ start := by omega
    simp [pushIds, h0, hlt]
  | succ fuel ih =>
    intro i ids hi53 h
    by_cases hi : i ≥ start
    · have hn : (i - start + 1).toNat = (i - 1 - start + 1).toNat + 1 := by omega
      have hround : roundInt (i - 1) = i - 1 := roundInt_of_le _ (by omega) (by omega)
      rw [pushIds, if_pos hi, hround, ih (i - 1) (ids ++ [i]) (by omega) (by omega), hn,
        List.range_succ_eq_map]
      simp only [List.map_cons, List.map_map, List.append_assoc, List.singleton_append,
        Nat.cast_zero, sub_zero]
      congr 3
      apply List.map_congr_left
      intro k _
      simp only [Function.comp_apply, Nat.cast_succ]
      ring
    · have h0 : (i - start + 1).toNat = 0 := by omega
      simp [pushIds, hi, h0]

theorem windowStart_ge_one (maxId : Int) : 1 ≤ windowStart maxId :=
  le_max_left _ _

theorem windowStart_eq (maxId : Int) (hlo : 1 ≤ maxId) (hhi : maxId ≤ 2 ^ 53) :
    windowStart maxId = max 1 (maxId - 99) := by
  have h1 : roundInt (maxId - searchRange) = maxId - 100 :=
    roundInt_of_le _ (by simp only [searchRange]; omega) (by simp only [searchRange]; omega)
  have h2 : roundInt (maxId - 100 + 1) = maxId - 99 := by
    rw [roundInt_of_le _ (by omega) (by omega)]; omega
  simp only [windowStart, h1, h2]

/-- For a latest id from 1 to `2 ^ 53` the loop of `search` ends within 100 iterations
and collects `maxId, maxId - 1, ..., max(1, maxId - 99)`. -/
theorem windowIds_eq (fuel : Nat) (maxId : Int) (hfuel : 100 ≤ fuel) (hlo : 1 ≤ maxId)
    (hhi : maxId ≤ 2 ^ 53) :
    windowIds fuel maxId
      = some ((List.range (min maxId 100).toNat).map (fun k : Nat => maxId - (k : Int))) := by
  have e : (maxId - max 1 (maxId - 99) + 1).toNat = (min maxId 100).toNat := by omega
  rw [windowIds, windowStart_eq maxId hlo hhi,
    pushIds_eq _ (le_max_left _ _) fuel maxId [] hhi (by omega), e, List.nil_append]

/-- For a latest id below 1 the loop of `search` does not run. -/
theorem windowIds_nonpos (fuel : Nat) (maxId : Int) (h : maxId < 1) :
    windowIds fuel maxId = some [] := by
  have hs := windowStart_ge_one maxId
  have hlt : ¬ maxId ≥ windowStart maxId := by omega
  cases fuel with
  | zero => simp [windowIds, pushIds, hlt]
  | succ fuel => simp [windowIds, pushIds, hlt]

/-- For a latest id that is absent or at most `2 ^ 53` the ids of `search` are
collected within 100 iterations; they are pairwise different. -/
theorem searchIds_some (fuel : Nat) (latestId : Option Int) (hfuel : 100 ≤ fuel)
    (hid : ∀ m, latestId = some m → m ≤ 2 ^ 53) :
    ∃ ids, searchIds fuel latestId = some ids ∧ ids.Nodup ∧ ids.length ≤ 100 := by
  cases latestId with
  | none => exact ⟨[], rfl, List.nodup_nil, by simp⟩
  | some m =>
    have hm := hid m rfl
    by_cases hlo : 1 ≤ m
    · refine ⟨_, windowIds_eq fuel m hfuel hlo hm, ?_, ?_⟩
      · have hp : ((List.range (min m 100).toNat).map
            (fun k : Nat => m - (k : Int))).Pairwise (fun a b => a > b) := by
          rw [List.pairwise_map]
          refine (List.pairwise_lt_range _).imp ?_
          intro a b hab
          omega
        exact hp.imp (fun h => ne_of_gt h)
      · rw [List.length_map, List.length_range]; omega
    · exact ⟨[], windowIds_nonpos fuel m (by omega), List.nodup_nil, by simp⟩

/-- The bounded behaviour of the window: for a latest id from 1 to `2 ^ 53` the ids
`search` resolves are exactly `maxId, maxId - 1, ..., max(1, maxId - 99)`, strictly
descending, `min(maxId, 100)` of them. -/
theorem searchIds_window (fuel : Nat) (maxId : Int) (hfuel : 100 ≤ fuel) (hmax : 1 ≤ maxId)
    (hsafe : maxId ≤ 2 ^ 53) :
    ∃ ids, searchIds fuel (some maxId) = some ids ∧
      ids = (List.range (min maxId 100).toNat).map (fun k : Nat => maxId - (k : Int)) ∧
      (∀ i : Int, i ∈ ids ↔ max 1 (maxId - 99) ≤ i ∧ i ≤ maxId) ∧
      ids.Pairwise (fun a b => a > b) ∧
      (ids.length : Int) = min maxId 100 := by
  refine ⟨_, windowIds_eq fuel maxId hfuel hmax hsafe, rfl, ?_, ?_, ?_⟩
  · intro i
    simp only [List.mem_map, List.mem_range]
    constructor
    · rintro ⟨k, hk, rfl⟩
      omega
    · rintro ⟨h1, h2⟩
      exact ⟨(maxId - i).toNat, by omega, by omega⟩
  · rw [List.pairwise_map]
    refine (List.pairwise_lt_range _).imp ?_
    intro a b hab
    omega
  · rw [List.length_map, List.length_range]; omega

/-- A loop whose counter is at or above the bound and is not changed by the rounded
decrement is still running after any number of iterations. -/
theorem pushIds_stuck (start i : Int) (hge : i ≥ start) (hfix : roundInt (i - 1) = i) :
    ∀ (fuel : Nat) (ids : List Int), pushIds start fuel i ids = none := by
  intro fuel
  induction fuel with
  | zero => intro ids; simp [pushIds, hge]
  | succ fuel ih => intro ids; rw [pushIds, if_pos hge, hfix]; exact ih _

/-- C2, the failing input. For the latest id 9007199254740996 (`2 ^ 53 + 4`, an
integer of the language) the decrement `i--` rounds back to `i`, so the loop that
collects the ids is still running after any number of iterations and `search` never
gets past it; for the latest id 9007199254740994 (`2 ^ 53 + 2`) the loop ends with 99
ids, the first decrement going from `2 ^ 53 + 2` to `2 ^ 53`. -/
theorem searchIds_never_ends (fuel : Nat) :
    roundInt 9007199254740996 = 9007199254740996 ∧
    roundInt (9007199254740996 - 1) = 9007199254740996 ∧
    searchIds fuel (some 9007199254740996) = none ∧
    (∀ (js : Engine) (up : Upstream) (cache : Cache) (clock : Clock) (query : String)
        (page limit : Int) (latest : Item),
      query ≠ "" →
      (getLatest up cache (clock.checkAt CacheKey.latest)
        (clock.storeAt CacheKey.latest)).result = Except.ok latest →
      latest.id = some 9007199254740996 →
      search js fuel up cache clock query page limit = none) ∧
    (99 ≤ fuel →
      searchIds fuel (some 9007199254740994)
        = some (9007199254740994 ::
            (List.range 98).map (fun k : Nat => 9007199254740992 - (k : Int)))) := by
  have hfix : roundInt (9007199254740996 - 1) = 9007199254740996 := by decide
  have hstart : windowStart 9007199254740996 = 9007199254740897 := by decide
  have hnone : searchIds fuel (some 9007199254740996) = none := by
    simp only [searchIds, windowIds, hstart]
    exact pushIds_stuck _ _ (by decide) hfix fuel []
  refine ⟨by decide, hfix, hnone, ?_, ?_⟩
  · intro js up cache clock query page limit latest hq hl hid
    simp only [search, hq, if_false, hl, hid, hnone]
  · intro hfuel
    obtain ⟨f, rfl⟩ : ∃ f, fuel = f + 1 := ⟨fuel - 1, by omega⟩
    have hstart2 : windowStart 9007199254740994 = 9007199254740895 := by decide
    have hstep : roundInt (9007199254740994 - 1) = 9007199254740992 := by decide
    have hge : (9007199254740994 : Int) ≥ 9007199254740895 := by decide
    simp only [searchIds, windowIds, hstart2]
    rw [pushIds, if_pos hge, hstep,
      pushIds_eq 9007199254740895 (by decide) f 9007199254740992 _ (by decide) (by omega)]
    rfl

end XKCD

namespace XKCD

/-! ## The random draw -/

/-- Rounding a natural number at or above `2 ^ 53`, as one case distinction: up when
the remainder is above half the spacing, or is half of it and the quotient is odd. -/
theorem roundNat_eq (n : Nat) (h : 2 ^ 53 ≤ n) :
    roundNat n
      = if 2 ^ (spacingExp n - 1) < n % 2 ^ spacingExp n ∨
          (n % 2 ^ spacingExp n = 2 ^ (spacingExp n - 1) ∧ n / 2 ^ spacingExp n % 2 ≠ 0)
        then (n / 2 ^ spacingExp n + 1) * 2 ^ spacingExp n
        else n / 2 ^ spacingExp n * 2 ^ spacingExp n := by
  have hnot : ¬ n < 2 ^ 53 := by omega
  simp only [roundNat, hnot, if_false]
  by_cases h1 : n % 2 ^ spacingExp n < 2 ^ (spacingExp n - 1)
  · rw [if_pos h1, if_neg (by omega)]
  · rw [if_neg h1]
    by_cases h2 : 2 ^ (spacingExp n - 1) < n % 2 ^ spacingExp n
    · rw [if_pos h2, if_pos (Or.inl h2)]
    · rw [if_neg h2]
      by_cases h3 : n / 2 ^ spacingExp n % 2 = 0
      · rw [if_pos h3, if_neg (by omega)]
      · rw [if_neg h3, if_pos (Or.inr ⟨by omega, h3⟩)]

/-- Rounding to binary64 is monotone. -/
theorem roundNat_mono (a b : Nat) (hab : a ≤ b) : roundNat a ≤ roundNat b := by
  by_cases ha : a < 2 ^ 53
  · rw [roundNat_of_lt a ha]
    by_cases hb : b < 2 ^ 53
    · rw [roundNat_of_lt b hb]; exact hab
    · have hb' : 2 ^ 53 ≤ b := by omega
      obtain ⟨hlo, _, hs⟩ := spacingExp_spec b hb'
      have hdiv : 2 ^ 52 ≤ b / 2 ^ spacingExp b := by
        rw [Nat.le_div_iff_mul_le (Nat.two_pow_pos _)]
        rw [← Nat.pow_add]; exact hlo
      have hmul : 2 ^ 52 * 2 ^ spacingExp b ≤ b / 2 ^ spacingExp b * 2 ^ spacingExp b :=
        Nat.mul_le_mul_right _ hdiv
      have hbig : 2 ^ 53 ≤ 2 ^ 52 * 2 ^ spacingExp b := by
        have : (2 : Nat) ^ 53 = 2 ^ 52 * 2 ^ 1 := by decide
        rw [this]
        exact Nat.mul_le_mul_left _ (Nat.pow_le_pow_right (by decide) hs)
      have := (roundNat_bounds b hb').1
      omega
  · have ha' : 2 ^ 53 ≤ a := by omega
    have hb' : 2 ^ 53 ≤ b := by omega
    obtain ⟨halo, hahi, has⟩ := spacingExp_spec a ha'
    obtain ⟨hblo, hbhi, hbs⟩ := spacingExp_spec b hb'
    have hsle : spacingExp a ≤ spacingExp b := by
      by_contra hlt
      have hk : 53 + spacingExp b ≤ 52 + spacingExp a := by omega
      have : 2 ^ (53 + spacingExp b) ≤ 2 ^ (52 + spacingExp a) :=
        Nat.pow_le_pow_right (by decide) hk
      omega
    have hqa : a / 2 ^ spacingExp a < 2 ^ 53 := by
      rw [Nat.div_lt_iff_lt_mul (Nat.two_pow_pos _), ← Nat.pow_add]
      exact hahi
    have hupper : roundNat a ≤ (a / 2 ^ spacingExp a + 1) * 2 ^ spacingExp a := by
      rcases roundNat_cases a ha' with e | ⟨e, _⟩
      · rw [e]; exact Nat.mul_le_mul_right _ (Nat.le_succ _)
      · rw [e]
    rcases Nat.lt_or_ge (spacingExp a) (spacingExp b) with hlt | hge
    · have h1 : (a / 2 ^ spacingExp a + 1) * 2 ^ spacingExp a ≤ 2 ^ 53 * 2 ^ spacingExp a :=
        Nat.mul_le_mul_right _ (by omega)
      have h2 : 2 ^ 53 * 2 ^ spacingExp a ≤ 2 ^ 52 * 2 ^ spacingExp b := by
        rw [← Nat.pow_add, ← Nat.pow_add]
        exact Nat.pow_le_pow_right (by decide) (by omega)
      have hdiv : 2 ^ 52 ≤ b / 2 ^ spacingExp b := by
        rw [Nat.le_div_iff_mul_le (Nat.two_pow_pos _), ← Nat.pow_add]; exact hblo
      have h3 : 2 ^ 52 * 2 ^ spacingExp b ≤ b / 2 ^ spacingExp b * 2 ^ spacingExp b :=
        Nat.mul_le_mul_right _ hdiv
      have := (roundNat_bounds b hb').1
      omega
    · have hs : spacingExp a = spacingExp b := by omega
      have hq : a / 2 ^ spacingExp b ≤ b / 2 ^ spacingExp b := Nat.div_le_div_right hab
      rcases Nat.lt_or_ge (a / 2 ^ spacingExp b) (b / 2 ^ spacingExp b) with hqlt | hqge
      · have h1 : (a / 2 ^ spacingExp b + 1) * 2 ^ spacingExp b
            ≤ b / 2 ^ spacingExp b * 2 ^ spacingExp b :=
          Nat.mul_le_mul_right _ hqlt
        have := (roundNat_bounds b hb').1
        rw [hs] at hupper
        omega
      · have hqeq : a / 2 ^ spacingExp b = b / 2 ^ spacingExp b := by omega
        have hda := Nat.div_add_mod a (2 ^ spacingExp b)
        have hdb := Nat.div_add_mod b (2 ^ spacingExp b)
        have hr : a % 2 ^ spacingExp b ≤ b % 2 ^ spacingExp b := by
          rw [hqeq] at hda
          omega
        rw [roundNat_eq a ha', roundNat_eq b hb', hs, hqeq]
        have hle : b / 2 ^ spacingExp b * 2 ^ spacingExp b
            ≤ (b / 2 ^ spacingExp b + 1) * 2 ^ spacingExp b :=
          Nat.mul_le_mul_right _ (Nat.le_succ _)
        by_cases ca : 2 ^ (spacingExp b - 1) < a % 2 ^ spacingExp b ∨
            (a % 2 ^ spacingExp b = 2 ^ (spacingExp b - 1) ∧
              b / 2 ^ spacingExp b % 2 ≠ 0)
        · have cb : 2 ^ (spacingExp b - 1) < b % 2 ^ spacingExp b ∨
              (b % 2 ^ spacingExp b = 2 ^ (spacingExp b - 1) ∧
                b / 2 ^ spacingExp b % 2 ≠ 0) := by
            rcases ca with c | ⟨c1, c2⟩
            · left; omega
            · by_cases hb2 : 2 ^ (spacingExp b - 1) < b % 2 ^ spacingExp b
              · left; exact hb2
              · right; exact ⟨by omega, c2⟩
          rw [if_pos ca, if_pos cb]
        · rw [if_neg ca]
          split
          · exact hle
          · exact le_refl _

theorem roundInt_of_nonneg (z : Int) (h : 0 ≤ z) : roundInt z = (roundNat z.toNat : Int) := by
  have hn : ¬ z < 0 := by omega
  have e : z.natAbs = z.toNat := by omega
  simp only [roundInt, hn, if_false, e]

/-- The rounded, floored product of a draw below 1 and a positive `max` is below
`max`. -/
theorem floorProduct_lt (d : Draw) (max : Int) (hd : d.isDouble) (hmax : 1 ≤ max) :
    (floorProduct d max : Int) < max := by
  obtain ⟨hm, hk, _⟩ := hd
  obtain ⟨M, rfl⟩ := Int.eq_ofNat_of_zero_le (by omega : (0 : Int) ≤ max)
  have hM : 1 ≤ M := by omega
  have hpow : 2 ^ 53 ≤ 2 ^ d.scale := Nat.pow_le_pow_right (by decide) hk
  have hnext : d.mantissa * M + M ≤ 2 ^ d.scale * M := by
    have : (d.mantissa + 1) * M ≤ 2 ^ d.scale * M := Nat.mul_le_mul_right _ (by omega)
    rw [Nat.add_mul, Nat.one_mul] at this
    exact this
  have hR : roundNat (d.mantissa * M) < 2 ^ d.scale * M := by
    by_cases hsmall : d.mantissa * M < 2 ^ 53
    · rw [roundNat_of_lt _ hsmall]; omega
    · have hbig : 2 ^ 53 ≤ d.mantissa * M := by omega
      obtain ⟨hlo, _, hs⟩ := spacingExp_spec _ hbig
      have hup := (roundNat_bounds _ hbig).2
      have hsplit : 2 ^ (52 + spacingExp (d.mantissa * M))
          = 2 ^ 53 * 2 ^ (spacingExp (d.mantissa * M) - 1) := by
        rw [← Nat.pow_add]; congr 1; omega
      have hlt : d.mantissa * M < 2 ^ 53 * M := Nat.mul_lt_mul_of_pos_right hm (by omega)
      have hhalf : 2 ^ (spacingExp (d.mantissa * M) - 1) < M := by
        have : 2 ^ 53 * 2 ^ (spacingExp (d.mantissa * M) - 1) < 2 ^ 53 * M := by omega
        exact Nat.lt_of_mul_lt_mul_left this
      omega
  have hF : floorProduct d (M : Int) < M := by
    simp only [floorProduct, Int.toNat_ofNat]
    exact Nat.div_lt_of_lt_mul hR
  exact_mod_cast hF

/-- No result of a rounded operation is `2 ^ 53 + 1`. -/
theorem roundInt_ne (z : Int) : roundInt z ≠ 9007199254740993 := by
  by_cases hz : z < 0
  · simp only [roundInt, hz, if_true]; omega
  · rw [roundInt_of_nonneg z (by omega)]
    by_cases hsmall : z.toNat < 2 ^ 53
    · rw [roundNat_of_lt _ hsmall]; omega
    · have := roundNat_even z.toNat (by omega)
      omega

/-- C10, counterexample. The latest id 9007199254740994 (`2 ^ 53 + 2`) is an integer
of the language, and 9007199254740993 lies in `[1, maxId]`, but no draw gives it: the
id `getRandom` computes is a number of the language and 9007199254740993 is not. -/
theorem randomId_counterexample :
    roundInt 9007199254740994 = 9007199254740994 ∧
    (1 : Int) ≤ 9007199254740993 ∧ (9007199254740993 : Int) ≤ 9007199254740994 ∧
    ¬ ∃ d : Draw, d.isDouble ∧ randomId d 9007199254740994 = 9007199254740993 := by
  refine ⟨by decide, by decide, by decide, ?_⟩
  rintro ⟨d, _, h⟩
  exact roundInt_ne _ h

/-- For a `max` of at most `2 ^ 52` every value below `max` is the rounded, floored
product of some draw `m / 2 ^ 53`. -/
theorem floorProduct_onto (M j : Nat) (hM : M ≤ 2 ^ 52) (hj : j < M) :
    (j * 2 ^ 53 + M - 1) / M < 2 ^ 53 ∧
    floorProduct ⟨(j * 2 ^ 53 + M - 1) / M, 53⟩ (M : Int) = j := by
  have hMpos : 0 < M := by omega
  have hdm := Nat.div_add_mod (j * 2 ^ 53 + M - 1) M
  have hmod := Nat.mod_lt (j * 2 ^ 53 + M - 1) hMpos
  have hcomm : M * ((j * 2 ^ 53 + M - 1) / M) = (j * 2 ^ 53 + M - 1) / M * M :=
    Nat.mul_comm _ _
  have hlo : j * 2 ^ 53 ≤ (j * 2 ^ 53 + M - 1) / M * M := by omega
  have hhi : (j * 2 ^ 53 + M - 1) / M * M < j * 2 ^ 53 + M := by omega
  have hjM : j * 2 ^ 53 + 2 ^ 53 ≤ M * 2 ^ 53 := by
    have : (j + 1) * 2 ^ 53 ≤ M * 2 ^ 53 := Nat.mul_le_mul_right _ hj
    rw [Nat.add_mul, Nat.one_mul] at this
    exact this
  have hmlt : (j * 2 ^ 53 + M - 1) / M < 2 ^ 53 := by
    have h1 : (j * 2 ^ 53 + M - 1) / M * M < 2 ^ 53 * M := by
      rw [Nat.mul_comm (2 ^ 53) M]; omega
    exact Nat.lt_of_mul_lt_mul_right h1
  refine ⟨hmlt, ?_⟩
  simp only [floorProduct, Int.toNat_ofNat]
  have hR : j * 2 ^ 53 ≤ roundNat ((j * 2 ^ 53 + M - 1) / M * M) ∧
      roundNat ((j * 2 ^ 53 + M - 1) / M * M) < (j + 1) * 2 ^ 53 := by
    rw [Nat.add_mul, Nat.one_mul]
    by_cases hsmall : (j * 2 ^ 53 + M - 1) / M * M < 2 ^ 53
    · rw [roundNat_of_lt _ hsmall]; omega
    · have hbig : 2 ^ 53 ≤ (j * 2 ^ 53 + M - 1) / M * M := by omega
      obtain ⟨hdown, hup⟩ := roundNat_bounds _ hbig
      have h105 : (j * 2 ^ 53 + M - 1) / M * M < 2 ^ (53 + 52) := by
        have e : (2 : Nat) ^ (53 + 52) = 2 ^ 52 * 2 ^ 53 := by decide
        have : M * 2 ^ 53 ≤ 2 ^ 52 * 2 ^ 53 := Nat.mul_le_mul_right _ hM
        omega
      have hs := spacingExp_le _ 52 h105
      obtain ⟨_, _, hs1⟩ := spacingExp_spec _ hbig
      generalize spacingExp ((j * 2 ^ 53 + M - 1) / M * M) = s at hdown hup hs hs1
      generalize (j * 2 ^ 53 + M - 1) / M * M = n at hlo hhi hdown hup hbig
      have hhalf : 2 ^ (s - 1) ≤ 2 ^ 51 := Nat.pow_le_pow_right (by decide) (by omega)
      have h51 : (2 : Nat) ^ 51 + 2 ^ 52 < 2 ^ 53 := by decide
      constructor
      · have hsplit : j * 2 ^ 53 = j * 2 ^ (53 - s) * 2 ^ s := by
          rw [Nat.mul_assoc, ← Nat.pow_add]; congr 2; omega
        have hq : j * 2 ^ (53 - s) ≤ n / 2 ^ s := by
          rw [Nat.le_div_iff_mul_le (Nat.two_pow_pos _)]
          omega
        have := Nat.mul_le_mul_right (2 ^ s) hq
        omega
      · omega
  exact Nat.div_eq_of_lt_le hR.1 hR.2

/-- C10, amended. For a positive `maxId` that is a number of the language and a draw
`r` of `Math.random()`, a binary64 value with `0 ≤ r < 1`, the id that `getRandom`
passes to `getById`, `floor(r * maxId) + 1` in binary64 arithmetic, lies in
`[1, maxId]`; for `maxId ≤ 2 ^ 52` every integer of `[1, maxId]` is the id of some
draw; `getRandom` resolves exactly that id. -/
theorem randomId_range (maxId : Int) (d : Draw) (hmax : 1 ≤ maxId)
    (hnum : roundInt maxId = maxId) (hd : d.isDouble) :
    1 ≤ randomId d maxId ∧ randomId d maxId ≤ maxId ∧
    (maxId ≤ 2 ^ 52 → ∀ k : Int, 1 ≤ k → k ≤ maxId →
      ∃ d' : Draw, d'.isDouble ∧ randomId d' maxId = k) ∧
    (maxId = 500 → 1 ≤ randomId d maxId ∧ randomId d maxId ≤ 500) ∧
    (∀ (up : Upstream) (cache : Cache) (clock : Clock) (latest : Item),
      (getLatest up cache (clock.checkAt CacheKey.latest)
          (clock.storeAt CacheKey.latest)).result = Except.ok latest →
      latest.id = some maxId →
      (getRandom up cache clock d).cache
        = (getById up
            (getLatest up cache (clock.checkAt CacheKey.latest)
              (clock.storeAt CacheKey.latest)).cache
            (clock.checkAt (CacheKey.comic (randomId d maxId)))
            (clock.storeAt (CacheKey.comic (randomId d maxId)))
            (randomId d maxId)).cache ∧
      (getRandom up cache clock d).requests
        = (getLatest up cache (clock.checkAt CacheKey.latest)
            (clock.storeAt CacheKey.latest)).requests ++
          (getById up
            (getLatest up cache (clock.checkAt CacheKey.latest)
              (clock.storeAt CacheKey.latest)).cache
            (clock.checkAt (CacheKey.comic (randomId d maxId)))
            (clock.storeAt (CacheKey.comic (randomId d maxId)))
            (randomId d maxId)).requests ∧
      ∀ item : Item,
        (getById up
            (getLatest up cache (clock.checkAt CacheKey.latest)
              (clock.storeAt CacheKey.latest)).cache
            (clock.checkAt (CacheKey.comic (randomId d maxId)))
            (clock.storeAt (CacheKey.comic (randomId d maxId)))
            (randomId d maxId)).result = Except.ok item →
        (getRandom up cache clock d).result = Except.ok item) := by
  have hF := floorProduct_lt d maxId hd hmax
  have hid : randomId d maxId = (roundNat (floorProduct d maxId + 1) : Int) := by
    unfold randomId
    rw [roundInt_of_nonneg _ (by omega)]
    congr 2
  have hmaxN : (roundNat maxId.toNat : Int) = maxId := by
    rw [← roundInt_of_nonneg maxId (by omega)]; exact hnum
  have hlo : 1 ≤ randomId d maxId := by
    rw [hid]
    have := roundNat_mono 1 (floorProduct d maxId + 1) (by omega)
    rw [roundNat_of_lt 1 (by decide)] at this
    exact_mod_cast this
  have hhi : randomId d maxId ≤ maxId := by
    have hle := roundNat_mono (floorProduct d maxId + 1) maxId.toNat (by omega)
    have hcast : (roundNat (floorProduct d maxId + 1) : Int) ≤ (roundNat maxId.toNat : Int) := by
      exact_mod_cast hle
    rw [hid]
    omega
  refine ⟨hlo, hhi, ?_, fun h => h ▸ ⟨hlo, hhi⟩, ?_⟩
  · intro h52 k hk1 hk2
    obtain ⟨M, rfl⟩ := Int.eq_ofNat_of_zero_le (by omega : (0 : Int) ≤ maxId)
    obtain ⟨j, hj⟩ : ∃ j : Nat, k = (j : Int) + 1 := ⟨(k - 1).toNat, by omega⟩
    subst hj
    have hM : M ≤ 2 ^ 52 := by exact_mod_cast h52
    obtain ⟨hm, hfloor⟩ := floorProduct_onto M j hM (by omega)
    refine ⟨⟨(j * 2 ^ 53 + M - 1) / M, 53⟩, ⟨hm, Nat.le_refl 53, by show 53 ≤ 1074; decide⟩, ?_⟩
    unfold randomId
    rw [hfloor]
    exact roundInt_of_le _ (by omega) (by omega)
  · intro up cache clock latest hl hlid
    have hnot : ¬ maxId < 1 := by omega
    simp only [getRandom, hl, hlid, hnot, if_false]
    refine ⟨by split <;> rfl, by split <;> rfl, ?_⟩
    intro item hitem
    simp only [hitem]

/-- Witness of C10, amended: the latest id 500 and the draw 1/2. -/
theorem randomId_range_witness :
    (1 : Int) ≤ 500 ∧ roundInt 500 = 500 ∧ Draw.isDouble ⟨2 ^ 52, 53⟩ ∧
    1 ≤ randomId ⟨2 ^ 52, 53⟩ 500 ∧ randomId ⟨2 ^ 52, 53⟩ 500 ≤ 500 :=
  ⟨by decide, by decide, by decide,
    (randomId_range 500 ⟨2 ^ 52, 53⟩ (by decide) (by decide) (by decide)).1,
    (randomId_range 500 ⟨2 ^ 52, 53⟩ (by decide) (by decide) (by decide)).2.1⟩

end XKCD

namespace XKCD

/-! ## The cache -/

theorem freshEntry_of_fresh (c : Option CacheEntry) (now : Int) (e : CacheEntry)
    (hc : c = some e) (h : now - e.timestamp < cacheTimeout) : freshEntry c now = some e := by
  subst hc
  simp [freshEntry, h]

theorem freshEntry_of_stale (c : Option CacheEntry) (now : Int)
    (h : ∀ e, c = some e → cacheTimeout ≤ now - e.timestamp) : freshEntry c now = none := by
  cases c with
  | none => rfl
  | some e =>
    have := h e rfl
    simp only [freshEntry]
    rw [if_neg (by omega)]

theorem freshEntry_some (c : Option CacheEntry) (now : Int) (e : CacheEntry)
    (h : freshEntry c now = some e) : c = some e ∧ now - e.timestamp < cacheTimeout := by
  cases c with
  | none => simp [freshEntry] at h
  | some e' =>
    simp only [freshEntry] at h
    split at h
    · rename_i hlt
      cases h
      exact ⟨rfl, hlt⟩
    · cases h

theorem Cache.set_same (c : Cache) (key : CacheKey) (entry : CacheEntry) :
    (c.set key entry) key = some entry := by
  simp [Cache.set]

theorem Cache.set_other (c : Cache) (key k : CacheKey) (entry : CacheEntry) (h : k ≠ key) :
    (c.set key entry) k = c k := by
  simp [Cache.set, h]

theorem statusOk_ne_404 (status : Nat) (h : statusOk status = true) : status ≠ 404 := by
  simp only [statusOk, Bool.and_eq_true, decide_eq_true_eq] at h
  omega

/-- A call of `getById` that finds a fresh entry returns its data, leaves the cache as
it is and sends nothing. -/
theorem getById_hit (up : Upstream) (cache : Cache) (now stamp n : Int) (e : CacheEntry)
    (hn : 1 ≤ n) (hc : cache (CacheKey.comic n) = some e)
    (hfresh : now - e.timestamp < cacheTimeout) :
    getById up cache now stamp n = ⟨Except.ok e.data, cache, []⟩ := by
  have h1 : ¬ n < 1 := by omega
  simp only [getById, h1, if_false, freshEntry_of_fresh _ now e hc hfresh]

/-- A call of `getById` that finds no fresh entry and gets a success response with a
document stores and returns the normalised document. -/
theorem getById_fetch_ok (up : Upstream) (cache : Cache) (now stamp n : Int)
    (status : Nat) (statusText : String) (comic : Comic) (hn : 1 ≤ n)
    (hstale : ∀ e, cache (CacheKey.comic n) = some e → cacheTimeout ≤ now - e.timestamp)
    (hup : up.byId n = FetchResult.response status statusText (Except.ok comic))
    (hok : statusOk status = true) :
    getById up cache now stamp n
      = ⟨Except.ok (processComic comic),
          cache.set (CacheKey.comic n) ⟨processComic comic, stamp⟩, [Request.comicInfo n]⟩ := by
  have h1 : ¬ n < 1 := by omega
  simp only [getById, h1, if_false, freshEntry_of_stale _ now hstale, hup,
    statusOk_ne_404 status hok, hok, Bool.not_true, Bool.false_eq_true]

/-- A call of `getById` that finds no fresh entry sends exactly one request, whatever
the upstream answers. -/
theorem getById_miss_requests (up : Upstream) (cache : Cache) (now stamp n : Int)
    (hn : 1 ≤ n)
    (hstale : ∀ e, cache (CacheKey.comic n) = some e → cacheTimeout ≤ now - e.timestamp) :
    (getById up cache now stamp n).requests = [Request.comicInfo n] := by
  have h1 : ¬ n < 1 := by omega
  simp only [getById, h1, if_false, freshEntry_of_stale _ now hstale]
  split
  · rfl
  · split
    · rfl
    · split
      · rfl
      · split <;> rfl

/-- After a successful `getById` the cache holds the returned item under the id's key;
the call sent at most one request, and if it sent one the entry carries the time of
the store. -/
theorem getById_ok_entry (up : Upstream) (cache : Cache) (now stamp n : Int) (item : Item)
    (h : (getById up cache now stamp n).result = Except.ok item) :
    1 ≤ n ∧
    ∃ e, (getById up cache now stamp n).cache (CacheKey.comic n) = some e ∧
      e.data = item ∧
      (getById up cache now stamp n).requests.length ≤ 1 ∧
      ((getById up cache now stamp n).requests ≠ [] → e.timestamp = stamp) := by
  by_cases h1 : n < 1
  · simp [getById, h1] at h
  refine ⟨by omega, ?_⟩
  cases hf : freshEntry (cache (CacheKey.comic n)) now with
  | some e =>
    obtain ⟨hc, hfresh⟩ := freshEntry_some _ _ _ hf
    rw [getById_hit up cache now stamp n e (by omega) hc hfresh] at h ⊢
    simp only [Except.ok.injEq] at h
    exact ⟨e, hc, h, by simp, by simp⟩
  | none =>
    have hstale : ∀ e, cache (CacheKey.comic n) = some e → cacheTimeout ≤ now - e.timestamp := by
      intro e hc
      by_contra hlt
      rw [freshEntry_of_fresh _ now e hc (by omega)] at hf
      cases hf
    cases hu : up.byId n with
    | rejected msg => simp [getById, h1, hf, hu] at h
    | response status statusText body =>
      by_cases h404 : status = 404
      · simp [getById, h1, hf, hu, h404] at h
      · cases hok : statusOk status with
        | false => simp [getById, h1, hf, hu, h404, hok] at h
        | true =>
          cases body with
          | error msg => simp [getById, h1, hf, hu, h404, hok] at h
          | ok comic =>
            rw [getById_fetch_ok up cache now stamp n status statusText comic (by omega)
              hstale hu hok] at h ⊢
            simp only [Except.ok.injEq] at h
            exact ⟨⟨processComic comic, stamp⟩, Cache.set_same _ _ _, h, by simp,
              fun _ => rfl⟩

/-- C5. If `getById(id)` succeeds and is called again while `now` minus the timestamp
of the entry it left is below five minutes, the two calls together send at most one
request upstream, the second call leaves the cache unchanged and returns the very item
the first call returned and stored. -/
theorem getById_twice (up1 up2 : Upstream) (cache : Cache) (now1 stamp1 now2 stamp2 n : Int)
    (item : Item) (hn : 1 ≤ n)
    (hfirst : (getById up1 cache now1 stamp1 n).result = Except.ok item) :
    ∃ e, (getById up1 cache now1 stamp1 n).cache (CacheKey.comic n) = some e ∧
      e.data = item ∧
      ((getById up1 cache now1 stamp1 n).requests ≠ [] → e.timestamp = stamp1) ∧
      (now2 - e.timestamp < cacheTimeout →
        (getById up2 (getById up1 cache now1 stamp1 n).cache now2 stamp2 n).requests = [] ∧
        ((getById up1 cache now1 stamp1 n).requests ++
          (getById up2 (getById up1 cache now1 stamp1 n).cache now2 stamp2 n).requests).length
          ≤ 1 ∧
        (getById up2 (getById up1 cache now1 stamp1 n).cache now2 stamp2 n).cache
          = (getById up1 cache now1 stamp1 n).cache ∧
        (getById up2 (getById up1 cache now1 stamp1 n).cache now2 stamp2 n).result
          = Except.ok item) := by
  obtain ⟨_, e, hc, hdata, hreq, hstamp⟩ := getById_ok_entry up1 cache now1 stamp1 n item hfirst
  refine ⟨e, hc, hdata, hstamp, ?_⟩
  intro hfresh
  rw [getById_hit up2 _ now2 stamp2 n e hn hc hfresh]
  refine ⟨rfl, ?_, rfl, by rw [hdata]⟩
  simpa using hreq

/-- Witness of C5: comic 3 fetched at time 0, stored at 10, asked again at 20. -/
theorem getById_twice_witness :
    (1 : Int) ≤ 3 ∧
    (getById sampleUpstream emptyCache 0 10 3).result
      = Except.ok (processComic (sampleComic 3 "Spider" "web")) ∧
    (getById sampleUpstream (getById sampleUpstream emptyCache 0 10 3).cache 20 30 3).result
      = Except.ok (processComic (sampleComic 3 "Spider" "web")) ∧
    (getById sampleUpstream (getById sampleUpstream emptyCache 0 10 3).cache 20 30 3).requests
      = [] := by
  refine ⟨by decide, rfl, ?_⟩
  obtain ⟨e, _, _, hstamp, hsecond⟩ :=
    getById_twice sampleUpstream sampleUpstream emptyCache 0 10 20 30 3
      (processComic (sampleComic 3 "Spider" "web")) (by decide) rfl
  have ht : e.timestamp = 10 := hstamp (by decide)
  have hfresh : (20 : Int) - e.timestamp < cacheTimeout := by rw [ht]; decide
  exact ⟨(hsecond hfresh).2.2.2, (hsecond hfresh).1⟩

theorem getLatest_hit (up : Upstream) (cache : Cache) (now stamp : Int) (e : CacheEntry)
    (hc : cache CacheKey.latest = some e) (hfresh : now - e.timestamp < cacheTimeout) :
    getLatest up cache now stamp = ⟨Except.ok e.data, cache, []⟩ := by
  simp only [getLatest, freshEntry_of_fresh _ now e hc hfresh]

theorem getLatest_fetch_ok (up : Upstream) (cache : Cache) (now stamp : Int)
    (status : Nat) (statusText : String) (comic : Comic)
    (hstale : ∀ e, cache CacheKey.latest = some e → cacheTimeout ≤ now - e.timestamp)
    (hup : up.latest = FetchResult.response status statusText (Except.ok comic))
    (hok : statusOk status = true) :
    getLatest up cache now stamp
      = ⟨Except.ok (processComic comic),
          cache.set CacheKey.latest ⟨processComic comic, stamp⟩, [Request.latestInfo]⟩ := by
  simp only [getLatest, freshEntry_of_stale _ now hstale, hup, hok, Bool.not_true,
    Bool.false_eq_true, if_false]

theorem getLatest_miss_requests (up : Upstream) (cache : Cache) (now stamp : Int)
    (hstale : ∀ e, cache CacheKey.latest = some e → cacheTimeout ≤ now - e.timestamp) :
    (getLatest up cache now stamp).requests = [Request.latestInfo] := by
  simp only [getLatest, freshEntry_of_stale _ now hstale]
  split
  · rfl
  · split
    · rfl
    · split <;> rfl

/-- C6. In `getById` and in `getLatest` alike an entry is used only while
`now - entry.timestamp < 300000`: when the entry of the key is present and
`now - entry.timestamp >= 300000`, equality included, the call sends a new request
upstream and, when that succeeds, returns the new item and overwrites the entry with it
and the new timestamp; a younger entry is returned without a request. -/
theorem stale_entry_refetched (up : Upstream) (cache : Cache) (now stamp n : Int)
    (e : CacheEntry) (hn : 1 ≤ n) (hstale : 300000 ≤ now - e.timestamp) :
    cacheTimeout = 300000 ∧
    (cache (CacheKey.comic n) = some e →
      (getById up cache now stamp n).requests = [Request.comicInfo n] ∧
      ∀ (status : Nat) (statusText : String) (comic : Comic),
        up.byId n = FetchResult.response status statusText (Except.ok comic) →
        statusOk status = true →
        (getById up cache now stamp n).result = Except.ok (processComic comic) ∧
        (getById up cache now stamp n).cache
          = cache.set (CacheKey.comic n) ⟨processComic comic, stamp⟩ ∧
        (getById up cache now stamp n).cache (CacheKey.comic n)
          = some ⟨processComic comic, stamp⟩) ∧
    (cache CacheKey.latest = some e →
      (getLatest up cache now stamp).requests = [Request.latestInfo] ∧
      ∀ (status : Nat) (statusText : String) (comic : Comic),
        up.latest = FetchResult.response status statusText (Except.ok comic) →
        statusOk status = true →
        (getLatest up cache now stamp).result = Except.ok (processComic comic) ∧
        (getLatest up cache now stamp).cache
          = cache.set CacheKey.latest ⟨processComic comic, stamp⟩ ∧
        (getLatest up cache now stamp).cache CacheKey.latest
          = some ⟨processComic comic, stamp⟩) ∧
    (∀ (earlier : Int), earlier - e.timestamp < 300000 →
      (cache (CacheKey.comic n) = some e →
        getById up cache earlier stamp n = ⟨Except.ok e.data, cache, []⟩) ∧
      (cache CacheKey.latest = some e →
        getLatest up cache earlier stamp = ⟨Except.ok e.data, cache, []⟩)) := by
  have hT : cacheTimeout = 300000 := by decide
  refine ⟨hT, ?_, ?_, ?_⟩
  · intro hc
    have hs : ∀ e', cache (CacheKey.comic n) = some e' →
        cacheTimeout ≤ now - e'.timestamp := by
      intro e' he'
      rw [hc] at he'
      cases he'
      rw [hT]; exact hstale
    refine ⟨getById_miss_requests up cache now stamp n hn hs, ?_⟩
    intro status statusText comic hup hok
    rw [getById_fetch_ok up cache now stamp n status statusText comic hn hs hup hok]
    exact ⟨rfl, rfl, Cache.set_same cache (CacheKey.comic n) ⟨processComic comic, stamp⟩⟩
  · intro hc
    have hs : ∀ e', cache CacheKey.latest = some e' →
        cacheTimeout ≤ now - e'.timestamp := by
      intro e' he'
      rw [hc] at he'
      cases he'
      rw [hT]; exact hstale
    refine ⟨getLatest_miss_requests up cache now stamp hs, ?_⟩
    intro status statusText comic hup hok
    rw [getLatest_fetch_ok up cache now stamp status statusText comic hs hup hok]
    exact ⟨rfl, rfl, Cache.set_same cache CacheKey.latest ⟨processComic comic, stamp⟩⟩
  · intro earlier hfresh
    exact ⟨fun hc => getById_hit up cache earlier stamp n e hn hc (by rw [hT]; exact hfresh),
      fun hc => getLatest_hit up cache earlier stamp e hc (by rw [hT]; exact hfresh)⟩

/-- Witness of C6: entries stored at time 0 and read at time 300000, the boundary. -/
theorem stale_entry_refetched_witness :
    (1 : Int) ≤ 3 ∧ (300000 : Int) ≤ 300000 - 0 ∧
    (getById sampleUpstream staleCache 300000 300007 3).requests = [Request.comicInfo 3] ∧
    (getById sampleUpstream staleCache 300000 300007 3).cache (CacheKey.comic 3)
      = some ⟨processComic (sampleComic 3 "Spider" "web"), 300007⟩ ∧
    (getLatest sampleUpstream staleCache 300000 300007).cache CacheKey.latest
      = some ⟨processComic (sampleComic 3 "Spider" "web"), 300007⟩ := by
  have h := stale_entry_refetched sampleUpstream staleCache 300000 300007 3
    ⟨processComic (sampleComic 3 "Old" "old"), 0⟩ (by decide) (by decide)
  refine ⟨by decide, by decide, (h.2.1 rfl).1, ?_, ?_⟩
  · exact ((h.2.1 rfl).2 200 "OK" (sampleComic 3 "Spider" "web") rfl rfl).2.2
  · exact ((h.2.2.1 rfl).2 200 "OK" (sampleComic 3 "Spider" "web") rfl rfl).2.2

/-! ## Not found -/

/-- C7. When no fresh entry exists for a positive `id` and the upstream answers 404,
`getById(id)` fails with the error whose message is exactly `Comic not found` (not
wrapped by `Failed to fetch comic`; the error handler answers it with status 404), the
cache after the call is the cache before it, so no entry is made for the id, and a later
`getById(id)` sends a request upstream again. -/
theorem getById_not_found (up : Upstream) (cache : Cache) (now stamp n : Int)
    (statusText : String) (body : Except String Comic) (hn : 1 ≤ n)
    (hstale : ∀ e, cache (CacheKey.comic n) = some e → cacheTimeout ≤ now - e.timestamp)
    (h404 : up.byId n = FetchResult.response 404 statusText body) :
    (getById up cache now stamp n).result = Except.error "Comic not found" ∧
    (∀ msg, (getById up cache now stamp n).result = Except.error msg →
      ¬ ("Failed to fetch comic".data <+: msg.data) ∧
      errorHandlerStatus (plainError msg) = 404) ∧
    (getById up cache now stamp n).cache = cache ∧
    (cache (CacheKey.comic n) = none →
      (getById up cache now stamp n).cache (CacheKey.comic n) = none) ∧
    (getById up cache now stamp n).requests = [Request.comicInfo n] ∧
    (∀ (up2 : Upstream) (now2 stamp2 : Int), now ≤ now2 →
      (getById up2 (getById up cache now stamp n).cache now2 stamp2 n).requests
        = [Request.comicInfo n]) ∧
    (cache (CacheKey.comic n) = none → ∀ (up2 : Upstream) (now2 stamp2 : Int),
      (getById up2 (getById up cache now stamp n).cache now2 stamp2 n).requests
        = [Request.comicInfo n]) := by
  have h1 : ¬ n < 1 := by omega
  have hr : getById up cache now stamp n
      = ⟨Except.error "Comic not found", cache, [Request.comicInfo n]⟩ := by
    simp only [getById, h1, if_false, freshEntry_of_stale _ now hstale, h404, if_true,
      rethrowById]
  rw [hr]
  refine ⟨rfl, ?_, rfl, fun h => h, rfl, ?_, ?_⟩
  · intro msg hmsg
    simp only [Except.error.injEq] at hmsg
    subst hmsg
    decide
  · intro up2 now2 stamp2 hle
    apply getById_miss_requests up2 cache now2 stamp2 n hn
    intro e he
    have := hstale e he
    omega
  · intro hnone up2 now2 stamp2
    apply getById_miss_requests up2 cache now2 stamp2 n hn
    intro e he
    rw [hnone] at he
    cases he

/-- Witness of C7: comic 2 of the sample upstream, asked with an empty cache. -/
theorem getById_not_found_witness :
    (1 : Int) ≤ 2 ∧
    (getById sampleUpstream emptyCache 0 10 2).result = Except.error "Comic not found" ∧
    (getById sampleUpstream emptyCache 0 10 2).cache = emptyCache :=
  ⟨by decide,
    (getById_not_found sampleUpstream emptyCache 0 10 2 "Not Found"
      (Except.error "Unexpected token") (by decide) (fun _ h => by cases h) rfl).1,
    (getById_not_found sampleUpstream emptyCache 0 10 2 "Not Found"
      (Except.error "Unexpected token") (by decide) (fun _ h => by cases h) rfl).2.2.1⟩

end XKCD

namespace XKCD

/-! ## The fan-out of `search` -/

/-- A call of `getById` touches no key of the cache but the one of its id. -/
theorem getById_cache_other (up : Upstream) (cache : Cache) (now stamp n : Int)
    (k : CacheKey) (hk : k ≠ CacheKey.comic n) :
    (getById up cache now stamp n).cache k = cache k := by
  unfold getById
  split
  · rfl
  · split
    · rfl
    · split
      · rfl
      · split
        · rfl
        · split
          · rfl
          · split
            · rfl
            · exact Cache.set_other _ _ _ _ hk

/-- The result and the requests of `getById` depend on the cache only through the
entry of its id. -/
theorem getById_congr (up : Upstream) (c1 c2 : Cache) (now stamp n : Int)
    (h : c1 (CacheKey.comic n) = c2 (CacheKey.comic n)) :
    (getById up c1 now stamp n).result = (getById up c2 now stamp n).result ∧
    (getById up c1 now stamp n).requests = (getById up c2 now stamp n).requests := by
  unfold getById
  rw [h]
  split
  · exact ⟨rfl, rfl⟩
  · split
    · exact ⟨rfl, rfl⟩
    · split
      · exact ⟨rfl, rfl⟩
      · split
        · exact ⟨rfl, rfl⟩
        · split
          · exact ⟨rfl, rfl⟩
          · split <;> exact ⟨rfl, rfl⟩

/-- Over ids without repeats, every entry of the fan-out is what `getById` gives on the
cache the fan-out started from: the calls do not influence one another. -/
theorem resolveAll_items (up : Upstream) (clock : Clock) (c0 : Cache) :
    ∀ (ids : List Int) (c : Cache), ids.Nodup →
      (∀ id ∈ ids, c (CacheKey.comic id) = c0 (CacheKey.comic id)) →
      (resolveAll up clock ids c).1 = ids.map (resolveOne up clock c0) := by
  intro ids
  induction ids with
  | nil => intro c _ _; rfl
  | cons id rest ih =>
    intro c hnodup hagree
    obtain ⟨hnot, hrest⟩ := List.nodup_cons.mp hnodup
    simp only [resolveAll, List.map_cons]
    congr 1
    · unfold resolveOne
      rw [(getById_congr up c c0 _ _ id (hagree id (List.mem_cons_self _ _))).1]
    · apply ih _ hrest
      intro j hj
      have hne : CacheKey.comic j ≠ CacheKey.comic id := by
        intro hEq
        cases hEq
        exact hnot hj
      rw [getById_cache_other up c _ _ id _ hne]
      exact hagree j (List.mem_cons_of_mem _ hj)

theorem length_filter_filterMap {α β : Type} (f : α → Option β) (p : β → Bool)
    (l : List α) :
    ((l.filterMap f).filter p).length = (l.filter (fun a => (f a).any p)).length := by
  induction l with
  | nil => rfl
  | cons a l ih =>
    cases hfa : f a with
    | none => simp [List.filterMap_cons, List.filter_cons, hfa, ih]
    | some b =>
      cases hpb : p b with
      | false => simp [List.filterMap_cons, List.filter_cons, hfa, hpb, ih]
      | true => simp [List.filterMap_cons, List.filter_cons, hfa, hpb, ih]

/-! ## The filter of `search` -/

/-- On text or a falsy value `(c.<property> || '').toLowerCase()` is the lower-cased
text of the field; on any other value it throws. -/
theorem lowerOf_eq (js : Engine) (property : String) (v : JSValue) :
    lowerOf js property v
      = if textOrFalsy v = true then Except.ok (js.toLowerCase (textOf v))
        else Except.error (js.typeErrorMessage property) := by
  cases v with
  | undefined => rfl
  | null => rfl
  | bool b => cases b <;> rfl
  | number n =>
    by_cases hn : n = 0
    · subst hn; rfl
    · simp [lowerOf, orDefault, truthy, textOrFalsy, hn]
  | string s =>
    by_cases hs : s = ""
    · subst hs; rfl
    · simp [lowerOf, orDefault, truthy, textOrFalsy, textOf, hs]
  | object json => rfl

/-- The predicate of the filter returns a value exactly on items whose title and
transcript are text or falsy, and then it is the disjunction of the two searches. -/
theorem matchesQuery_eq (js : Engine) (q : String) (c : Item) :
    matchesQuery js q c
      = if textOrFalsy c.title = true then
          (if textOrFalsy c.transcript = true then
            Except.ok (includes (js.toLowerCase (textOf c.title)) q ||
              includes (js.toLowerCase (textOf c.transcript)) q)
          else Except.error (js.typeErrorMessage "transcript"))
        else Except.error (js.typeErrorMessage "title") := by
  simp only [matchesQuery, lowerOf_eq]
  by_cases h1 : textOrFalsy c.title = true
  · by_cases h2 : textOrFalsy c.transcript = true
    · rw [if_pos h1, if_pos h2, if_pos h1, if_pos h2]
    · rw [if_pos h1, if_neg h2, if_pos h1, if_neg h2]
  · rw [if_neg h1, if_neg h1]

/-- When the predicate throws on no item, the filter returns the items on which it is
true, in their order. -/
theorem filterMatches_ok (js : Engine) (q : String) (l : List Item)
    (h : ∀ c ∈ l, textOrFalsy c.title = true ∧ textOrFalsy c.transcript = true) :
    filterMatches js q l
      = Except.ok (l.filter (fun c => decide (matchesQuery js q c = Except.ok true))) := by
  induction l with
  | nil => rfl
  | cons c rest ih =>
    obtain ⟨h1, h2⟩ := h c (List.mem_cons_self _ _)
    have hrest := ih (fun x hx => h x (List.mem_cons_of_mem _ hx))
    have hc : matchesQuery js q c
        = Except.ok (includes (js.toLowerCase (textOf c.title)) q ||
            includes (js.toLowerCase (textOf c.transcript)) q) := by
      rw [matchesQuery_eq, if_pos h1, if_pos h2]
    simp only [filterMatches, hc, hrest, List.filter_cons, Except.ok.injEq, decide_eq_true_eq]

/-- When the filter returns, the predicate threw on no item. -/
theorem filterMatches_text (js : Engine) (q : String) (l matched : List Item)
    (h : filterMatches js q l = Except.ok matched) :
    ∀ c ∈ l, textOrFalsy c.title = true ∧ textOrFalsy c.transcript = true := by
  induction l generalizing matched with
  | nil => intro c hc; cases hc
  | cons c rest ih =>
    have hc : textOrFalsy c.title = true ∧ textOrFalsy c.transcript = true := by
      by_contra hno
      have herr : ∃ e, matchesQuery js q c = Except.error e := by
        rw [matchesQuery_eq]
        by_cases h1 : textOrFalsy c.title = true
        · have h2 : ¬ textOrFalsy c.transcript = true := fun h2 => hno ⟨h1, h2⟩
          exact ⟨_, by rw [if_pos h1, if_neg h2]⟩
        · exact ⟨_, by rw [if_neg h1]⟩
      obtain ⟨e, he⟩ := herr
      simp [filterMatches, he] at h
    have hrest : ∃ m, filterMatches js q rest = Except.ok m := by
      cases hr : filterMatches js q rest with
      | ok m => exact ⟨m, rfl⟩
      | error e =>
        have hcq : ∃ b, matchesQuery js q c = Except.ok b := by
          rw [matchesQuery_eq, if_pos hc.1, if_pos hc.2]; exact ⟨_, rfl⟩
        obtain ⟨b, hb⟩ := hcq
        simp [filterMatches, hb, hr] at h
    obtain ⟨m, hm⟩ := hrest
    intro x hx
    rcases List.mem_cons.mp hx with rfl | hx'
    · exact hc
    · exact ih m hm x hx'

/-- The value of `search` once `query` is not empty, `getLatest` has succeeded and the
loop that collects the ids has ended. -/
theorem search_unfold (js : Engine) (fuel : Nat) (up : Upstream) (cache : Cache)
    (clock : Clock) (query : String) (page limit : Int) (latest : Item) (ids : List Int)
    (hq : query ≠ "")
    (hlatest : (getLatest up cache (clock.checkAt CacheKey.latest)
      (clock.storeAt CacheKey.latest)).result = Except.ok latest)
    (hids : searchIds fuel latest.id = some ids) :
    (search js fuel up cache clock query page limit).map (fun o => o.result)
      = some (match filterMatches js (js.toLowerCase (trim query))
            ((resolveAll up clock ids
              (getLatest up cache (clock.checkAt CacheKey.latest)
                (clock.storeAt CacheKey.latest)).cache).1.filterMap id) with
          | Except.error msg => Except.error ("Search failed: " ++ msg)
          | Except.ok matched => Except.ok (paginate query matched page limit)) := by
  simp only [search, hq, if_false, hlatest, hids]
  split <;> rfl

/-- C3, counterexample. On the upstream whose comic 3 has the number 123 as title,
`getLatest` succeeds and comic 3 resolves, yet `search` fails: the filter throws on the
resolved item and the error is reported as a failed search. -/
theorem search_fails_counterexample :
    "spider" ≠ "" ∧
    (getLatest numericTitleUpstream emptyCache (sampleClock.checkAt CacheKey.latest)
      (sampleClock.storeAt CacheKey.latest)).result
      = Except.ok (processComic (sampleComic 3 "Spider" "web")) ∧
    (resolveOne numericTitleUpstream sampleClock
      (getLatest numericTitleUpstream emptyCache (sampleClock.checkAt CacheKey.latest)
        (sampleClock.storeAt CacheKey.latest)).cache 3).isSome = true ∧
    (search sampleEngine 100 numericTitleUpstream emptyCache sampleClock "spider" 1 10).map
        (fun o => o.result)
      = some (Except.error
          "Search failed: (c.title || \"\").toLowerCase is not a function") := by
  decide

/-- C3, amended. For a non-empty query and an upstream on which `getLatest` succeeds
with a latest id that is absent or at most `2 ^ 53`, and on which every item that
resolves in the window has text or a falsy value as title and as transcript, `search`
succeeds whichever ids of the window fail to resolve through `getById`: the loop that
collects the ids ends within 100 iterations, the failing ids are dropped, the matched
items are the resolved, matching ones in the order of the window (most recent first),
and `total` is the number of window ids that resolved and match. -/
theorem search_partial_failure (js : Engine) (fuel : Nat) (up : Upstream) (cache : Cache)
    (clock : Clock) (query : String) (page limit : Int) (latest : Item)
    (hq : query ≠ "") (hfuel : 100 ≤ fuel)
    (hlatest : (getLatest up cache (clock.checkAt CacheKey.latest)
      (clock.storeAt CacheKey.latest)).result = Except.ok latest)
    (hid : ∀ m, latest.id = some m → m ≤ 2 ^ 53)
    (htext : ∀ ids, searchIds fuel latest.id = some ids → ∀ id ∈ ids, ∀ item,
      resolveOne up clock
        (getLatest up cache (clock.checkAt CacheKey.latest)
          (clock.storeAt CacheKey.latest)).cache id = some item →
      textOrFalsy item.title = true ∧ textOrFalsy item.transcript = true) :
    ∃ (ids : List Int) (out : Outcome SearchResult) (res : SearchResult),
      searchIds fuel latest.id = some ids ∧ ids.length ≤ 100 ∧
      search js fuel up cache clock query page limit = some out ∧
      out.result = Except.ok res ∧
      res = paginate query
          ((ids.filterMap
              (resolveOne up clock
                (getLatest up cache (clock.checkAt CacheKey.latest)
                  (clock.storeAt CacheKey.latest)).cache)).filter
            (fun c => decide (matchesQuery js (js.toLowerCase (trim query)) c
              = Except.ok true)))
          page limit ∧
      res.total
        = (ids.filter (fun id =>
            (resolveOne up clock
              (getLatest up cache (clock.checkAt CacheKey.latest)
                (clock.storeAt CacheKey.latest)).cache id).any
              (fun c => decide (matchesQuery js (js.toLowerCase (trim query)) c
                = Except.ok true)))).length := by
  obtain ⟨ids, hids, hnodup, hlen⟩ := searchIds_some fuel latest.id hfuel hid
  have hitems := resolveAll_items up clock
    (getLatest up cache (clock.checkAt CacheKey.latest)
      (clock.storeAt CacheKey.latest)).cache ids _ hnodup (fun _ _ => rfl)
  have hcomics : (resolveAll up clock ids
      (getLatest up cache (clock.checkAt CacheKey.latest)
        (clock.storeAt CacheKey.latest)).cache).1.filterMap id
      = ids.filterMap (resolveOne up clock
          (getLatest up cache (clock.checkAt CacheKey.latest)
            (clock.storeAt CacheKey.latest)).cache) := by
    rw [hitems, List.filterMap_map]
    rfl
  have hall : ∀ c ∈ ids.filterMap (resolveOne up clock
      (getLatest up cache (clock.checkAt CacheKey.latest)
        (clock.storeAt CacheKey.latest)).cache),
      textOrFalsy c.title = true ∧ textOrFalsy c.transcript = true := by
    intro c hc
    obtain ⟨i, hi, hci⟩ := List.mem_filterMap.mp hc
    exact htext ids hids i hi c hci
  have hfilter := filterMatches_ok js (js.toLowerCase (trim query)) _ hall
  have hsearch := search_unfold js fuel up cache clock query page limit latest ids hq
    hlatest hids
  rw [hcomics, hfilter] at hsearch
  cases hout : search js fuel up cache clock query page limit with
  | none => rw [hout] at hsearch; cases hsearch
  | some out =>
    rw [hout] at hsearch
    simp only [Option.map_some', Option.some.injEq] at hsearch
    refine ⟨ids, out, _, hids, hlen, rfl, hsearch, rfl, ?_⟩
    simp only [paginate]
    exact length_filter_filterMap _ _ _

/-- Witness of C3, amended: the sample upstream, where of the window 3, 2, 1 only
comic 3 resolves. -/
theorem search_partial_failure_witness :
    "spider" ≠ "" ∧ 100 ≤ 100 ∧
    (getLatest sampleUpstream emptyCache (sampleClock.checkAt CacheKey.latest)
      (sampleClock.storeAt CacheKey.latest)).result
      = Except.ok (processComic (sampleComic 3 "Spider" "web")) ∧
    ∃ (out : Outcome SearchResult) (res : SearchResult),
      search sampleEngine 100 sampleUpstream emptyCache sampleClock "spider" 1 10
        = some out ∧
      out.result = Except.ok res ∧ res.total = 1 ∧
      res.results = [processComic (sampleComic 3 "Spider" "web")] := by
  refine ⟨by decide, by decide, rfl, ?_⟩
  have hwindow : searchIds 100 (processComic (sampleComic 3 "Spider" "web")).id
      = some [3, 2, 1] := by decide
  obtain ⟨ids, out, res, hids, _, hout, hres, heq, _⟩ :=
    search_partial_failure sampleEngine 100 sampleUpstream emptyCache sampleClock "spider"
      1 10 (processComic (sampleComic 3 "Spider" "web")) (by decide) (by decide) rfl
      (by intro m hm; cases hm; decide)
      (by
        intro ids hids id hid item hitem
        rw [hwindow] at hids
        have e : ids = [3, 2, 1] := (Option.some.inj hids).symm
        subst e
        simp only [List.mem_cons, List.mem_singleton, List.not_mem_nil, or_false] at hid
        rcases hid with rfl | rfl | rfl
        · have : resolveOne sampleUpstream sampleClock
              (getLatest sampleUpstream emptyCache (sampleClock.checkAt CacheKey.latest)
                (sampleClock.storeAt CacheKey.latest)).cache 3
              = some (processComic (sampleComic 3 "Spider" "web")) := by decide
          rw [this] at hitem
          cases hitem
          decide
        · have : resolveOne sampleUpstream sampleClock
              (getLatest sampleUpstream emptyCache (sampleClock.checkAt CacheKey.latest)
                (sampleClock.storeAt CacheKey.latest)).cache 2 = none := by decide
          rw [this] at hitem
          cases hitem
        · have : resolveOne sampleUpstream sampleClock
              (getLatest sampleUpstream emptyCache (sampleClock.checkAt CacheKey.latest)
                (sampleClock.storeAt CacheKey.latest)).cache 1 = none := by decide
          rw [this] at hitem
          cases hitem)
  rw [hwindow] at hids
  have e : ids = [3, 2, 1] := (Option.some.inj hids).symm
  subst e
  refine ⟨out, res, hout, hres, ?_, ?_⟩
  · rw [heq]; decide
  · rw [heq]; decide

/-! ## The matching rule -/

theorem dropWhile_eq_nil_of_all {α : Type} (p : α → Bool) (l : List α)
    (h : ∀ c ∈ l, p c = true) : l.dropWhile p = [] := by
  have := @List.dropWhile_append_of_pos α p l [] h
  simpa using this

theorem dropWhile_eq_self_of_head {α : Type} (p : α → Bool) (l : List α)
    (h : ∀ c, l.head? = some c → p c = false) : l.dropWhile p = l := by
  cases l with
  | nil => rfl
  | cons a l =>
    have ha : p a = false := h a rfl
    simp [List.dropWhile_cons, ha]

/-- The trimmed form of a query is unique: it is what `trim` returns. -/
theorem IsTrimmed.eq_trim (t query : String) (h : IsTrimmed t query) : t = trim query := by
  obtain ⟨before, after, hq, hb, ha, hhead, hlast⟩ := h
  have hdata : (trim query).data = t.data := by
    simp only [trim, hq, List.append_assoc]
    rw [List.dropWhile_append_of_pos hb]
    by_cases hnil : t.data = []
    · rw [hnil, List.nil_append, dropWhile_eq_nil_of_all _ _ ha]
      rfl
    · have hhead2 : ∀ c, (t.data ++ after).head? = some c → isTrimSpace c = false := by
        intro c hc
        rw [List.head?_append_of_ne_nil _ hnil] at hc
        exact hhead c hc
      rw [dropWhile_eq_self_of_head _ _ hhead2, List.reverse_append]
      have hrev : ∀ c ∈ after.reverse, isTrimSpace c = true := by
        intro c hc
        exact ha c (List.mem_reverse.mp hc)
      rw [List.dropWhile_append_of_pos hrev]
      have hlast2 : ∀ c, t.data.reverse.head? = some c → isTrimSpace c = false := by
        intro c hc
        rw [List.head?_reverse] at hc
        exact hlast c hc
      rw [dropWhile_eq_self_of_head _ _ hlast2, List.reverse_reverse]
  cases t with
  | mk td =>
    cases htq : trim query with
    | mk qd =>
      rw [htq] at hdata
      simp only at hdata
      rw [hdata]

/-- What `trim` returns is a trimmed form of the query. -/
theorem isTrimmed_trim (query : String) : IsTrimmed (trim query) query := by
  have h1 := List.takeWhile_append_dropWhile isTrimSpace query.data
  have h2 := List.takeWhile_append_dropWhile isTrimSpace
    (query.data.dropWhile isTrimSpace).reverse
  have h3 : query.data.dropWhile isTrimSpace
      = ((query.data.dropWhile isTrimSpace).reverse.dropWhile isTrimSpace).reverse ++
        ((query.data.dropWhile isTrimSpace).reverse.takeWhile isTrimSpace).reverse := by
    rw [← List.reverse_append, h2, List.reverse_reverse]
  refine ⟨query.data.takeWhile isTrimSpace,
    ((query.data.dropWhile isTrimSpace).reverse.takeWhile isTrimSpace).reverse, ?_, ?_, ?_,
    ?_, ?_⟩
  · show query.data = _ ++ ((query.data.dropWhile isTrimSpace).reverse.dropWhile
      isTrimSpace).reverse ++ _
    rw [List.append_assoc, ← h3, h1]
  · intro c hc
    exact List.mem_takeWhile_imp hc
  · intro c hc
    exact List.mem_takeWhile_imp (List.mem_reverse.mp hc)
  · intro c hc
    have hne : (trim query).data ≠ [] := by
      intro hnil; rw [hnil] at hc; cases hc
    have hne' : ((query.data.dropWhile isTrimSpace).reverse.dropWhile isTrimSpace).reverse
        ≠ [] := hne
    have hhead : (query.data.dropWhile isTrimSpace).head? = some c := by
      have e := congrArg List.head? h3
      rw [List.head?_append_of_ne_nil _ hne'] at e
      rw [e]
      exact hc
    have := List.head?_dropWhile_not isTrimSpace query.data
    rw [hhead] at this
    exact this
  · intro c hc
    have hhead : ((query.data.dropWhile isTrimSpace).reverse.dropWhile isTrimSpace).head?
        = some c := by
      rw [← List.getLast?_reverse]
      exact hc
    have := List.head?_dropWhile_not isTrimSpace (query.data.dropWhile isTrimSpace).reverse
    rw [hhead] at this
    exact this

/-- On an item whose title and transcript are text or falsy, the predicate of the
filter is true exactly when the specification's rule holds for the trimmed query. -/
theorem matchesQuery_iff_spec (js : Engine) (query : String) (c : Item)
    (h1 : textOrFalsy c.title = true) (h2 : textOrFalsy c.transcript = true) :
    matchesQuery js (js.toLowerCase (trim query)) c = Except.ok true ↔
      SpecMatches js query c := by
  rw [matchesQuery_eq, if_pos h1, if_pos h2]
  simp only [Except.ok.injEq, Bool.or_eq_true, includes, decide_eq_true_eq]
  constructor
  · intro h
    exact ⟨trim query, isTrimmed_trim query, h⟩
  · rintro ⟨t, ht, h⟩
    rw [IsTrimmed.eq_trim t query ht] at h
    exact h

/-- C4, counterexample. The query ` spider` (with a leading blank) is non-empty and is
not a case-insensitive substring of the title `Spider` or of the transcript `web`, yet
`search` counts the item: the code trims the query first. -/
theorem match_rule_counterexample :
    " spider" ≠ "" ∧
    ¬ ContainsIgnoringCase sampleEngine "Spider" " spider" ∧
    ¬ ContainsIgnoringCase sampleEngine "web" " spider" ∧
    (search sampleEngine 100 sampleUpstream emptyCache sampleClock " spider" 1 10).map
        (fun o => o.result)
      = some (Except.ok
          { query := " spider"
            results := [processComic (sampleComic 3 "Spider" "web")]
            total := 1
            pagination := { page := 1, limit := 10, offset := JSNum.fin 0,
                            totalPages := JSNum.fin 1 } }) := by
  decide

/-- C4, amended. When `search` returns a result for a non-empty query, a resolved item
of the window is counted in its matches if and only if the query, trimmed of white
space at both ends and compared case-insensitively, is a substring of the item's title
or of its transcript (a field without text counting as empty); the matches are the
resolved items for which this holds, in their order, and `total` is their number. -/
theorem search_match_rule (js : Engine) (fuel : Nat) (up : Upstream) (cache : Cache)
    (clock : Clock) (query : String) (page limit : Int) (latest : Item) (ids : List Int)
    (out : Outcome SearchResult) (res : SearchResult) (hq : query ≠ "")
    (hlatest : (getLatest up cache (clock.checkAt CacheKey.latest)
      (clock.storeAt CacheKey.latest)).result = Except.ok latest)
    (hids : searchIds fuel latest.id = some ids)
    (hout : search js fuel up cache clock query page limit = some out)
    (hres : out.result = Except.ok res) :
    ∃ (matched : List Item) (counted : Item → Bool),
      res = paginate query matched page limit ∧
      res.total = matched.length ∧
      matched = ((resolveAll up clock ids
          (getLatest up cache (clock.checkAt CacheKey.latest)
            (clock.storeAt CacheKey.latest)).cache).1.filterMap id).filter counted ∧
      (∀ item ∈ (resolveAll up clock ids
          (getLatest up cache (clock.checkAt CacheKey.latest)
            (clock.storeAt CacheKey.latest)).cache).1.filterMap id,
        (counted item = true ↔ SpecMatches js query item) ∧
        (item ∈ matched ↔ SpecMatches js query item)) := by
  have hsearch := search_unfold js fuel up cache clock query page limit latest ids hq
    hlatest hids
  rw [hout] at hsearch
  simp only [Option.map_some', Option.some.injEq, hres] at hsearch
  cases hf : filterMatches js (js.toLowerCase (trim query))
      ((resolveAll up clock ids
        (getLatest up cache (clock.checkAt CacheKey.latest)
          (clock.storeAt CacheKey.latest)).cache).1.filterMap id) with
  | error msg => rw [hf] at hsearch; cases hsearch
  | ok matched =>
    rw [hf] at hsearch
    simp only [Except.ok.injEq] at hsearch
    have htext := filterMatches_text js _ _ matched hf
    have hfilter := filterMatches_ok js (js.toLowerCase (trim query)) _ htext
    rw [hf] at hfilter
    simp only [Except.ok.injEq] at hfilter
    refine ⟨matched, fun c => decide (matchesQuery js (js.toLowerCase (trim query)) c
      = Except.ok true), hsearch, by rw [hsearch]; rfl, hfilter, ?_⟩
    intro item hitem
    obtain ⟨h1, h2⟩ := htext item hitem
    have hiff := matchesQuery_iff_spec js query item h1 h2
    refine ⟨by rw [decide_eq_true_eq]; exact hiff, ?_⟩
    rw [hfilter, List.mem_filter, decide_eq_true_eq]
    constructor
    · rintro ⟨_, h⟩; exact hiff.mp h
    · intro h; exact ⟨hitem, hiff.mpr h⟩

/-- Witness of C4, amended: the sample upstream and the query ` spider`. -/
theorem search_match_rule_witness :
    " spider" ≠ "" ∧
    ∃ (out : Outcome SearchResult) (res : SearchResult) (matched : List Item),
      search sampleEngine 100 sampleUpstream emptyCache sampleClock " spider" 1 10
        = some out ∧
      out.result = Except.ok res ∧ res.total = matched.length ∧
      ∀ item ∈ (resolveAll sampleUpstream sampleClock [3, 2, 1]
          (getLatest sampleUpstream emptyCache (sampleClock.checkAt CacheKey.latest)
            (sampleClock.storeAt CacheKey.latest)).cache).1.filterMap id,
        (item ∈ matched ↔ SpecMatches sampleEngine " spider" item) := by
  refine ⟨by decide, ?_⟩
  have hm : (search sampleEngine 100 sampleUpstream emptyCache sampleClock " spider" 1 10).map
      (fun o => o.result)
      = some (Except.ok
          { query := " spider"
            results := [processComic (sampleComic 3 "Spider" "web")]
            total := 1
            pagination := { page := 1, limit := 10, offset := JSNum.fin 0,
                            totalPages := JSNum.fin 1 } }) := by
    decide
  cases hout : search sampleEngine 100 sampleUpstream emptyCache sampleClock " spider" 1 10 with
  | none => rw [hout] at hm; cases hm
  | some out =>
    rw [hout] at hm
    simp only [Option.map_some', Option.some.injEq] at hm
    obtain ⟨matched, _, _, htotal, _, hrule⟩ :=
      search_match_rule sampleEngine 100 sampleUpstream emptyCache sampleClock " spider"
        1 10 (processComic (sampleComic 3 "Spider" "web")) [3, 2, 1] out _ (by decide)
        rfl (by decide) hout hm
    exact ⟨out, _, matched, rfl, hm, htotal, fun item hitem => (hrule item hitem).2⟩

end XKCD
